import Mathlib

/-!
Verification of the QOnboard resumable onboarding agent.

This file is a shallow embedding of the core of the repository:

* `src/qonboard/state.py` — the persistent progress store (`StateManager`);
* `src/qonboard/agent.py` — the per-environment step sequencer
  (`process_env`), the ticket orchestrator (`process_ticket`) and the run
  driver loop (`main`);
* `src/qonboard/clients/onboard_api.py` — `resolve_domain` and its
  environment → domain map.

Python dicts are modelled as association lists (`alget`/`alset` mirror
`dict.get` / in-place update through `setdefault`), JSON-backed records as
structures, side-effecting calls to external collaborators as fields of a
`World` record returning `Except`, the operator's Y/N answers as a function
from step ordinal to `Bool`, and console/Jira effects as an explicit event
trace.
-/

set_option maxHeartbeats 1600000

namespace QOnboard

/-- `TenantRecord` from `clients/postgres_client.py` (the fields cached by
the state manager). -/
structure TenantRecord where
  id : String
  subscriberid : String
  name : String
deriving Repr, DecidableEq

/-- Per-environment progress record: the JSON object stored under
`state[ticket]["environments"][env]` in `state.py`. -/
structure EnvState where
  steps_done : List Nat
  tenant : Option TenantRecord
  monitoring_user : Option String
  completed : Bool
  completed_at : Option String
deriving Repr, DecidableEq

/-- The fresh environment record created by `StateManager._env`. -/
def EnvState.fresh : EnvState :=
  { steps_done := [], tenant := none, monitoring_user := none
    completed := false, completed_at := none }

/-- Per-ticket progress record: the JSON object stored under
`state[ticket]` in `state.py`. -/
structure TicketState where
  started_at : String
  monitor_password : Option String
  environments : List (String × EnvState)
  completed : Bool
  completed_at : Option String
deriving Repr, DecidableEq

/-- The fresh ticket record created by `StateManager._ticket`; `now` is the
`datetime.now(...)` value recorded as `started_at`. -/
def TicketState.fresh (now : String) : TicketState :=
  { started_at := now, monitor_password := none, environments := []
    completed := false, completed_at := none }

/-- The whole state file content: a JSON object keyed by ticket key. -/
abbrev StateDict := List (String × TicketState)

/-- `d.get(k)` on a Python dict, for dicts modelled as association lists. -/
def alget {α : Type} : List (String × α) → String → Option α
  | [], _ => none
  | (k', v) :: rest, k => if k' = k then some v else alget rest k

/-- In-place update `d[k] = v` (insertion order preserved, new keys
appended at the end, as for a Python dict). -/
def alset {α : Type} : List (String × α) → String → α → List (String × α)
  | [], k, v => [(k, v)]
  | (k', v') :: rest, k, v =>
      if k' = k then (k, v) :: rest else (k', v') :: alset rest k v

namespace StateManager

/-- The ticket record as read with defaults:
`self._state.get(ticket_key, {})` — a missing key behaves like the empty
record (all nested `get`s fall through to their defaults). -/
def ticketAt (s : StateDict) (key : String) : TicketState :=
  (alget s key).getD (TicketState.fresh "")

/-- The environment record as read with defaults:
`self._state.get(t, {}).get("environments", {}).get(e, {})`. -/
def envAt (s : StateDict) (key env : String) : EnvState :=
  (alget (ticketAt s key).environments env).getD EnvState.fresh

/-- `StateManager._ticket` followed by an in-place mutation `f` of the
returned (or freshly created) ticket record. -/
def updTicket (s : StateDict) (key now : String) (f : TicketState → TicketState) :
    StateDict :=
  alset s key (f ((alget s key).getD (TicketState.fresh now)))

/-- `StateManager._env` followed by an in-place mutation `f` of the
returned (or freshly created) environment record. -/
def updEnv (s : StateDict) (key env now : String) (f : EnvState → EnvState) :
    StateDict :=
  updTicket s key now (fun t =>
    { t with environments :=
        alset t.environments env (f ((alget t.environments env).getD EnvState.fresh)) })

/-- `StateManager.get_monitor_password`. -/
def get_monitor_password (s : StateDict) (key : String) : Option String :=
  (ticketAt s key).monitor_password

/-- `StateManager.save_monitor_password` (the in-memory effect; the
`_save()` flush is modelled at the `DState` level below). -/
def save_monitor_password (s : StateDict) (key pw now : String) : StateDict :=
  updTicket s key now (fun t => { t with monitor_password := some pw })

/-- `StateManager.is_step_done`. -/
def is_step_done (s : StateDict) (key env : String) (step : Nat) : Bool :=
  (envAt s key env).steps_done.contains step

/-- `StateManager.mark_step_done`: append the ordinal unless present. -/
def mark_step_done (s : StateDict) (key env : String) (step : Nat) (now : String) :
    StateDict :=
  updEnv s key env now (fun e =>
    if e.steps_done.contains step then e
    else { e with steps_done := e.steps_done ++ [step] })

/-- `StateManager.save_tenant`. -/
def save_tenant (s : StateDict) (key env : String) (t : TenantRecord) (now : String) :
    StateDict :=
  updEnv s key env now (fun e => { e with tenant := some t })

/-- `StateManager.get_tenant` (`if not raw: return None`). -/
def get_tenant (s : StateDict) (key env : String) : Option TenantRecord :=
  (envAt s key env).tenant

/-- `StateManager.save_monitoring_user`. -/
def save_monitoring_user (s : StateDict) (key env email now : String) : StateDict :=
  updEnv s key env now (fun e => { e with monitoring_user := some email })

/-- `StateManager.is_env_completed`. -/
def is_env_completed (s : StateDict) (key env : String) : Bool :=
  (envAt s key env).completed

/-- `StateManager.mark_env_completed`. -/
def mark_env_completed (s : StateDict) (key env now : String) : StateDict :=
  updEnv s key env now (fun e => { e with completed := true, completed_at := some now })

/-- `StateManager.is_completed`: `all(envs.get(e, {}).get("completed", False)
for e in all_env_names)`. -/
def is_completed (s : StateDict) (key : String) (all_env_names : List String) : Bool :=
  all_env_names.all (fun e => (envAt s key e).completed)

/-- `StateManager.mark_completed`. -/
def mark_completed (s : StateDict) (key now : String) : StateDict :=
  updTicket s key now (fun t => { t with completed := true, completed_at := some now })

/-- `StateManager._load`: `fileExists` is `self._path.exists()`,
`readResult` the outcome of `read_text`, `jsonLoads` the outcome of
`json.loads`; every failure falls through to the empty state. -/
def load (fileExists : Bool) (readResult : Except String String)
    (jsonLoads : String → Except String StateDict) : StateDict :=
  if fileExists then
    match readResult with
    | .ok txt =>
        match jsonLoads txt with
        | .ok data => data
        | .error _ => []
    | .error _ => []
  else []

end StateManager

/-! ## Agent (`src/qonboard/agent.py`) -/

/-- One extracted user record (`ExtractedDetails`): firstname, lastname,
lowercase email. -/
structure UserRec where
  firstname : String
  lastname : String
  email : String
deriving Repr, DecidableEq

/-- `OnboardTicket` from `clients/jira_client.py`: key, summary, single
environment name, ordered user list. -/
structure OnboardTicket where
  key : String
  summary : String
  environment : String
  users : List UserRec
deriving Repr, DecidableEq

/-- Kinds of Jira comments `process_ticket` posts. -/
inductive CommentKind where
  | paused
  | failedEnv
  | completedSummary
deriving Repr, DecidableEq

/-- Observable effects of a run: operator prompts, already-done renders,
external collaborator calls (with their success flag) and Jira calls. -/
inductive Event where
  | promptStep (step : Nat)
  | skipRender (step : Nat)
  | pgGetUserAccountType (email : String)
  | onboardApiCall (email : String) (ok : Bool)
  | pgGetTenant (domain : String) (ok : Bool)
  | pgGetRoleIds (tenantId : String)
  | pgGetGroupIds (tenantId : String)
  | pgCreateMonitoringUser (email : String) (ok : Bool)
  | pgApplyUpdates (domain : String) (ok : Bool)
  | neo4jMergeTenant (ok : Bool)
  | jiraMarkInProgress (key : String)
  | jiraAddComment (key : String) (kind : CommentKind)
  | jiraMarkDone (key : String)
deriving Repr, DecidableEq

/-- How `process_env` can abort: the operator declined step `step`
(`UserSkipped`), or some call raised (`failure`). -/
inductive Abort where
  | userSkipped (step : Nat)
  | failure (msg : String)
deriving Repr, DecidableEq

/-- Result of a step or of the whole environment sequence: emitted trace,
resulting state, and the value or abort. -/
structure Res (α : Type) where
  tr : List Event
  st : StateDict
  val : Except Abort α
deriving Repr

/-- External collaborators, as deterministic fallible functions.
`bcrypt_hash` stands for `bcrypt.hashpw(·, gensalt())` (salt fixed for the
run); `init_env_clients` stands for `EnvDbConfig.from_file` plus the
construction of the Postgres/Neo4j clients in `EnvRegistry.get`
(`env_registry.py` lines 67–73), keyed by the env file path — it raises
e.g. `FileNotFoundError` when the env file is missing. -/
structure World where
  get_user_account_type : String → Except String (Option String)
  call_onboard_api : String → Except String Unit
  get_tenant : String → Except String TenantRecord
  get_tenant_role_ids : String → Except String (List String)
  get_tenant_group_ids : String → Except String (List String)
  create_monitoring_user :
    String → TenantRecord → String → List String → List String → Except String Bool
  apply_onboarding_updates : String → Except String Unit
  merge_tenant : TenantRecord → Except String Unit
  bcrypt_hash : String → String
  init_env_clients : String → Except String Unit

/-- `ENV_DOMAIN_MAP` from `clients/onboard_api.py`. -/
def ENV_DOMAIN_MAP : List (String × String) :=
  [("UAE POC",  "trust.quilr.ai"),
   ("UAE PROD", "trust.quilr.ai"),
   ("IND POC",  "platform.quilr.ai"),
   ("IND PROD", "platform.quilrai.com"),
   ("USA POC",  "app.quilr.ai"),
   ("USA PROD", "app.quilrai.com")]

/-- Python `str.strip()` (whitespace at both ends), over the char list. -/
def pyStrip (s : String) : String :=
  ⟨((s.data.dropWhile Char.isWhitespace).reverse.dropWhile Char.isWhitespace).reverse⟩

/-- Python `str.lower()` (ASCII, which covers the email/environment data). -/
def pyLower (s : String) : String := ⟨s.data.map Char.toLower⟩

/-- Python `c in s` for a single character. -/
def pyContains (s : String) (c : Char) : Bool := s.data.contains c

/-- Python `s.split(c, 1)[1]` — everything after the first `c` (only used
when `c` occurs in `s`). -/
def pyAfterFirst (s : String) (c : Char) : String :=
  ⟨(s.data.dropWhile (fun d => d != c)).drop 1⟩

/-- Python `s.rsplit(c, 1)[0]` — everything before the last `c`, or `s`
itself when `c` does not occur. -/
def pyBeforeLast (s : String) (c : Char) : String :=
  if s.data.contains c then
    ⟨((s.data.reverse.dropWhile (fun d => d != c)).drop 1).reverse⟩
  else s

/-- `resolve_domain` from `clients/onboard_api.py`: `ValueError` on an
unknown environment becomes `.error`.  (The map holds no `None` values, so
the second `ValueError` branch is unreachable.) -/
def resolve_domain (environment : String) : Except String String :=
  match alget ENV_DOMAIN_MAP (pyStrip environment) with
  | some d => .ok d
  | none => .error ("Unknown environment " ++ pyStrip environment)

/-- `ENV_FILE_MAP` from `clients/env_registry.py`: Jira environment field
value → `.env` file in the project root (the runtime `Path.cwd()` prefix
is omitted; the path is only handed opaquely to `init_env_clients`).  Its
key set is identical to `ENV_DOMAIN_MAP`'s. -/
def ENV_FILE_MAP : List (String × String) :=
  [("UAE POC",  ".env_uae"),
   ("UAE PROD", ".env_uae"),
   ("IND POC",  ".env_ind"),
   ("IND PROD", ".env_ind_prod"),
   ("USA POC",  ".env_us"),
   ("USA PROD", ".env_us_prod")]

/-- `EnvRegistry.get` from `clients/env_registry.py`: `ValueError` when
the stripped environment name is not in `ENV_FILE_MAP` (no value is
`None`, so the second `ValueError` branch is unreachable), else config
load and client construction, which may raise (`init_env_clients`).  The
per-run client cache only memoises the success value, so one call per
environment is modelled statelessly. -/
def registry_get (w : World) (env_name : String) : Except String Unit :=
  match alget ENV_FILE_MAP (pyStrip env_name) with
  | none => .error ("Unknown environment " ++ pyStrip env_name)
  | some file_path => w.init_env_clients file_path

/-- `extract_email_domain`: `ValueError` when there is no `@`, else the
part after the first `@`, lowercased and stripped. -/
def extract_email_domain (email : String) : Except String String :=
  if pyContains email '@' then
    .ok (pyStrip (pyLower (pyAfterFirst email '@')))
  else
    .error ("Invalid email address: " ++ email)

/-- `monitoring_email`: `monitor+{domain.rsplit(".", 1)[0]}@quilr.ai`. -/
def monitoring_email (email_domain : String) : String :=
  "monitor+" ++ pyBeforeLast email_domain '.' ++ "@quilr.ai"

/-- The user-classification loop of step 1: one
`pg.get_user_account_type` call per user, partitioning into
`(new_users, existing_users)`; a raising call aborts the loop.  (The two
`existing_users` branches differ only in the rendered reason.) -/
def classifyUsers (w : World) :
    List UserRec → List Event × Except String (List UserRec × List UserRec)
  | [] => ([], .ok ([], []))
  | u :: rest =>
    match w.get_user_account_type u.email with
    | .error m => ([.pgGetUserAccountType u.email], .error m)
    | .ok acct =>
      let (tr, r) := classifyUsers w rest
      (.pgGetUserAccountType u.email :: tr,
       r.map (fun p =>
         match acct with
         | none => (u :: p.1, p.2)
         | some _ => (p.1, u :: p.2)))

/-- The API-call loop of step 1: `call_onboard_api_for_user` per new user;
a raising call aborts the loop before the remaining users. -/
def callApis (w : World) : List UserRec → List Event × Except String Unit
  | [] => ([], .ok ())
  | u :: rest =>
    match w.call_onboard_api u.email with
    | .error m => ([.onboardApiCall u.email false], .error m)
    | .ok _ =>
      let (tr, r) := callApis w rest
      (.onboardApiCall u.email true :: tr, r)

/-- STEP 1 — Onboard API (agent.py lines 129–190): resolve the domain
(`ValueError` auto-marks the step done), skip if done, else classify
users, prompt only when there are new users, call the API per new user,
then mark done. -/
def step1 (w : World) (op : Nat → Bool) (users : List UserRec)
    (key env_name now : String) (s : StateDict) : Res Unit :=
  let s1 :=
    match resolve_domain env_name with
    | .ok _ => s
    | .error _ => StateManager.mark_step_done s key env_name 1 now
  if StateManager.is_step_done s1 key env_name 1 then
    ⟨[.skipRender 1], s1, .ok ()⟩
  else
    match classifyUsers w users with
    | (tr, .error m) => ⟨tr, s1, .error (.failure m)⟩
    | (tr, .ok (new_users, _existing)) =>
      if new_users.isEmpty then
        ⟨tr, StateManager.mark_step_done s1 key env_name 1 now, .ok ()⟩
      else if ! op 1 then
        ⟨tr ++ [.promptStep 1], s1, .error (.userSkipped 1)⟩
      else
        match callApis w new_users with
        | (tr2, .error m) =>
            ⟨tr ++ [.promptStep 1] ++ tr2, s1, .error (.failure m)⟩
        | (tr2, .ok _) =>
            ⟨tr ++ [.promptStep 1] ++ tr2,
             StateManager.mark_step_done s1 key env_name 1 now, .ok ()⟩

/-- STEP 2 — fetch tenant (agent.py lines 192–211): if done, read the
cached tenant, re-fetching read-only when the cache is missing; else
prompt, fetch, mark done and cache. -/
def step2 (w : World) (op : Nat → Bool) (key env_name email_domain now : String)
    (s : StateDict) : Res TenantRecord :=
  if StateManager.is_step_done s key env_name 2 then
    match StateManager.get_tenant s key env_name with
    | some t => ⟨[.skipRender 2], s, .ok t⟩
    | none =>
      match w.get_tenant email_domain with
      | .error m => ⟨[.pgGetTenant email_domain false], s, .error (.failure m)⟩
      | .ok t => ⟨[.pgGetTenant email_domain true, .skipRender 2], s, .ok t⟩
  else if ! op 2 then
    ⟨[.promptStep 2], s, .error (.userSkipped 2)⟩
  else
    match w.get_tenant email_domain with
    | .error m =>
        ⟨[.promptStep 2, .pgGetTenant email_domain false], s, .error (.failure m)⟩
    | .ok t =>
        ⟨[.promptStep 2, .pgGetTenant email_domain true],
         StateManager.save_tenant
           (StateManager.mark_step_done s key env_name 2 now) key env_name t now,
         .ok t⟩

/-- STEP 3 — create monitoring user (agent.py lines 218–286): if done,
re-display credentials only; else fetch role/group ids, hash the shared
password, prompt, create, mark done, cache the monitoring email. -/
def step3 (w : World) (op : Nat → Bool) (key env_name : String)
    (tenant : TenantRecord) (email_domain monitor_pw_plaintext now : String)
    (s : StateDict) : Res Unit :=
  let monitor_email_addr := monitoring_email email_domain
  if StateManager.is_step_done s key env_name 3 then
    ⟨[.skipRender 3], s, .ok ()⟩
  else
    match w.get_tenant_role_ids tenant.id with
    | .error m => ⟨[.pgGetRoleIds tenant.id], s, .error (.failure m)⟩
    | .ok role_ids =>
      match w.get_tenant_group_ids tenant.id with
      | .error m =>
          ⟨[.pgGetRoleIds tenant.id, .pgGetGroupIds tenant.id], s, .error (.failure m)⟩
      | .ok group_ids =>
        let password_hash := w.bcrypt_hash monitor_pw_plaintext
        if ! op 3 then
          ⟨[.pgGetRoleIds tenant.id, .pgGetGroupIds tenant.id, .promptStep 3],
           s, .error (.userSkipped 3)⟩
        else
          match w.create_monitoring_user monitor_email_addr tenant password_hash
              role_ids group_ids with
          | .error m =>
              ⟨[.pgGetRoleIds tenant.id, .pgGetGroupIds tenant.id, .promptStep 3,
                .pgCreateMonitoringUser monitor_email_addr false],
               s, .error (.failure m)⟩
          | .ok _created =>
              ⟨[.pgGetRoleIds tenant.id, .pgGetGroupIds tenant.id, .promptStep 3,
                .pgCreateMonitoringUser monitor_email_addr true],
               StateManager.save_monitoring_user
                 (StateManager.mark_step_done s key env_name 3 now)
                 key env_name monitor_email_addr now,
               .ok ()⟩

/-- STEP 4 — apply PostgreSQL updates (agent.py lines 288–309). -/
def step4 (w : World) (op : Nat → Bool) (key env_name email_domain now : String)
    (s : StateDict) : Res Unit :=
  if StateManager.is_step_done s key env_name 4 then
    ⟨[.skipRender 4], s, .ok ()⟩
  else if ! op 4 then
    ⟨[.promptStep 4], s, .error (.userSkipped 4)⟩
  else
    match w.apply_onboarding_updates email_domain with
    | .error m =>
        ⟨[.promptStep 4, .pgApplyUpdates email_domain false], s, .error (.failure m)⟩
    | .ok _ =>
        ⟨[.promptStep 4, .pgApplyUpdates email_domain true],
         StateManager.mark_step_done s key env_name 4 now, .ok ()⟩

/-- STEP 5 — Neo4j MERGE of the tenant node (agent.py lines 316–340). -/
def step5 (w : World) (op : Nat → Bool) (key env_name : String)
    (tenant : TenantRecord) (now : String) (s : StateDict) : Res Unit :=
  if StateManager.is_step_done s key env_name 5 then
    ⟨[.skipRender 5], s, .ok ()⟩
  else if ! op 5 then
    ⟨[.promptStep 5], s, .error (.userSkipped 5)⟩
  else
    match w.merge_tenant tenant with
    | .error m => ⟨[.promptStep 5, .neo4jMergeTenant false], s, .error (.failure m)⟩
    | .ok _ =>
        ⟨[.promptStep 5, .neo4jMergeTenant true],
         StateManager.mark_step_done s key env_name 5 now, .ok ()⟩

/-- The tail of `process_env` from step 5 on: run step 5, and on success
mark the environment completed (agent.py lines 316–352). -/
def envSteps5 (w : World) (op : Nat → Bool) (key env_name : String)
    (tenant : TenantRecord) (now : String) (s : StateDict) : Res Unit :=
  match step5 w op key env_name tenant now s with
  | ⟨tr5, s5, .error a⟩ => ⟨tr5, s5, .error a⟩
  | ⟨tr5, s5, .ok _⟩ =>
      ⟨tr5, StateManager.mark_env_completed s5 key env_name now, .ok ()⟩

/-- The tail of `process_env` from step 4 on. -/
def envSteps4 (w : World) (op : Nat → Bool) (key env_name : String)
    (tenant : TenantRecord) (email_domain now : String) (s : StateDict) : Res Unit :=
  match step4 w op key env_name email_domain now s with
  | ⟨tr4, s4, .error a⟩ => ⟨tr4, s4, .error a⟩
  | ⟨tr4, s4, .ok _⟩ =>
    let r := envSteps5 w op key env_name tenant now s4
    ⟨tr4 ++ r.tr, r.st, r.val⟩

/-- The tail of `process_env` from step 3 on. -/
def envSteps3 (w : World) (op : Nat → Bool) (key env_name : String)
    (tenant : TenantRecord) (email_domain monitor_pw now : String) (s : StateDict) :
    Res Unit :=
  match step3 w op key env_name tenant email_domain monitor_pw now s with
  | ⟨tr3, s3, .error a⟩ => ⟨tr3, s3, .error a⟩
  | ⟨tr3, s3, .ok _⟩ =>
    let r := envSteps4 w op key env_name tenant email_domain now s3
    ⟨tr3 ++ r.tr, r.st, r.val⟩

/-- The tail of `process_env` from step 2 on (the fetched tenant feeds
steps 3 and 5). -/
def envSteps2 (w : World) (op : Nat → Bool) (key env_name : String)
    (email_domain monitor_pw now : String) (s : StateDict) : Res Unit :=
  match step2 w op key env_name email_domain now s with
  | ⟨tr2, s2, .error a⟩ => ⟨tr2, s2, .error a⟩
  | ⟨tr2, s2, .ok tenant⟩ =>
    let r := envSteps3 w op key env_name tenant email_domain monitor_pw now s2
    ⟨tr2 ++ r.tr, r.st, r.val⟩

/-- The five steps in order (the body of `process_env` after the registry
lookup), each aborting the sequence on `UserSkipped` or a raised
exception; on full success the environment is marked completed. -/
def envSteps1 (w : World) (op : Nat → Bool) (ticket : OnboardTicket)
    (env_name email_domain monitor_pw_plaintext now : String) (s0 : StateDict) :
    Res Unit :=
  match step1 w op ticket.users ticket.key env_name now s0 with
  | ⟨tr1, s1, .error a⟩ => ⟨tr1, s1, .error a⟩
  | ⟨tr1, s1, .ok _⟩ =>
    let r := envSteps2 w op ticket.key env_name email_domain monitor_pw_plaintext now s1
    ⟨tr1 ++ r.tr, r.st, r.val⟩

/-- `process_env` (agent.py lines 110–352): first the
`env_clients = registry.get(env_name)` lookup at line 127, whose
exception propagates uncaught (it precedes the `try` around
`resolve_domain`), then the five steps. -/
def process_env (w : World) (op : Nat → Bool) (ticket : OnboardTicket)
    (env_name email_domain monitor_pw_plaintext now : String) (s0 : StateDict) :
    Res Unit :=
  match registry_get w env_name with
  | .error m => ⟨[], s0, .error (.failure m)⟩
  | .ok _ => envSteps1 w op ticket env_name email_domain monitor_pw_plaintext now s0

/-- The monitoring-password resolution of `process_ticket` (lines
388–391): reuse the cached ticket-level password, else generate
(`freshPw`) and save it. -/
def resolvePw (s : StateDict) (key freshPw now : String) : String × StateDict :=
  match StateManager.get_monitor_password s key with
  | some pw => (pw, s)
  | none => (freshPw, StateManager.save_monitor_password s key freshPw now)

/-- Outcome of `process_ticket` as seen by `main`: normal return, or an
exception propagated out. -/
inductive TicketOutcome where
  | ok
  | failed (msg : String)
deriving Repr, DecidableEq

/-- Result of `process_ticket`. -/
structure TRes where
  tr : List Event
  st : StateDict
  out : TicketOutcome
deriving Repr

/-- `process_ticket` (agent.py lines 357–441): mark in progress, extract
the email domain from the first user (raising on a malformed or missing
user), resolve the password, return early when the environment is
already completed, else run `process_env`; `UserSkipped` posts a paused
comment and returns, any other exception posts a failure comment and
re-raises, and success posts the summary, transitions the ticket and
marks it completed. -/
def process_ticket (w : World) (op : Nat → Bool) (ticket : OnboardTicket)
    (freshPw now : String) (s0 : StateDict) : TRes :=
  match ticket.users with
  | [] => ⟨[.jiraMarkInProgress ticket.key], s0, .failed "IndexError"⟩
  | u :: _ =>
    match extract_email_domain u.email with
    | .error m => ⟨[.jiraMarkInProgress ticket.key], s0, .failed m⟩
    | .ok email_domain =>
      let (pw, s1) := resolvePw s0 ticket.key freshPw now
      if StateManager.is_env_completed s1 ticket.key ticket.environment then
        ⟨[.jiraMarkInProgress ticket.key], s1, .ok⟩
      else
        match process_env w op ticket ticket.environment email_domain pw now s1 with
        | ⟨tre, se, .error (.userSkipped _)⟩ =>
            ⟨[.jiraMarkInProgress ticket.key] ++ tre
               ++ [.jiraAddComment ticket.key .paused], se, .ok⟩
        | ⟨tre, se, .error (.failure m)⟩ =>
            ⟨[.jiraMarkInProgress ticket.key] ++ tre
               ++ [.jiraAddComment ticket.key .failedEnv], se, .failed m⟩
        | ⟨tre, se, .ok _⟩ =>
            ⟨[.jiraMarkInProgress ticket.key] ++ tre
               ++ [.jiraAddComment ticket.key .completedSummary,
                   .jiraMarkDone ticket.key],
             StateManager.mark_completed se ticket.key now, .ok⟩

/-- The per-ticket loop of `main` (agent.py lines 526–539): skip tickets
whose single environment is already recorded complete, run the rest and
collect the keys of those that raised. -/
def run_tickets (w : World) (op : Nat → Bool) (freshPw now : String) :
    List OnboardTicket → StateDict → List Event × StateDict × List String
  | [], s => ([], s, [])
  | t :: rest, s =>
    if StateManager.is_completed s t.key [t.environment] then
      run_tickets w op freshPw now rest s
    else
      let r := process_ticket w op t freshPw now s
      let (tr, sF, failed) := run_tickets w op freshPw now rest r.st
      match r.out with
      | .ok => (r.tr ++ tr, sF, failed)
      | .failed _ => (r.tr ++ tr, sF, t.key :: failed)

/-! ### Event classification -/

/-- Is `e` the operator confirmation prompt of step `k`? -/
def Event.isPromptFor (k : Nat) : Event → Bool
  | .promptStep j => j = k
  | _ => false

/-- Is `e` an invocation of step `k`'s side-effecting action?  Step 1's
action is the onboard API call, step 3's the monitoring-user insert,
step 4's the tenant/subscriber updates, step 5's the Neo4j merge.  Step 2
only runs a read-only `SELECT`, and the remaining events are read-only
lookups or renders. -/
def Event.isActionFor (k : Nat) : Event → Bool
  | .onboardApiCall _ _ => k = 1
  | .pgCreateMonitoringUser _ _ => k = 3
  | .pgApplyUpdates _ _ => k = 4
  | .neo4jMergeTenant _ => k = 5
  | _ => false

/-- The success flag of an action event (`true` for non-actions). -/
def Event.actionOk : Event → Bool
  | .onboardApiCall _ ok => ok
  | .pgCreateMonitoringUser _ ok => ok
  | .pgApplyUpdates _ ok => ok
  | .neo4jMergeTenant ok => ok
  | _ => true

/-- The main external call of step `k` (what the spec calls the step's
`action`), including step 2's read-only tenant fetch. -/
def Event.isStepCallFor (k : Nat) : Event → Bool
  | .onboardApiCall _ _ => k = 1
  | .pgGetTenant _ _ => k = 2
  | .pgCreateMonitoringUser _ _ => k = 3
  | .pgApplyUpdates _ _ => k = 4
  | .neo4jMergeTenant _ => k = 5
  | _ => false

/-- Is `e` one of the Jira-facing effects? -/
def Event.isJira : Event → Bool
  | .jiraMarkInProgress _ => true
  | .jiraAddComment _ _ => true
  | .jiraMarkDone _ => true
  | _ => false

/-! ## Association-list and state-reader lemmas -/

theorem alget_alset {α : Type} (l : List (String × α)) (k k' : String) (v : α) :
    alget (alset l k v) k' = if k = k' then some v else alget l k' := by
  induction l with
  | nil => by_cases h : k = k' <;> simp [alset, alget, h]
  | cons hd tl ih =>
    obtain ⟨a, b⟩ := hd
    by_cases hak : a = k
    · subst hak
      by_cases hkk : a = k' <;> simp [alset, alget, hkk]
    · by_cases hak' : a = k'
      · subst hak'
        have : ¬ k = a := fun h => hak h.symm
        simp [alset, alget, hak, this]
      · simp [alset, alget, hak, hak', ih]

theorem alset_self {α : Type} (l : List (String × α)) (k : String) (v : α)
    (h : alget l k = some v) : alset l k v = l := by
  induction l with
  | nil => simp [alget] at h
  | cons hd tl ih =>
    obtain ⟨a, b⟩ := hd
    by_cases hak : a = k
    · subst hak
      simp [alget] at h
      simp [alset, h]
    · simp [alget, hak] at h
      simp [alset, hak, ih h]

namespace StateManager

/-- The environments list is default-independent: only `started_at`
distinguishes the fresh records. -/
theorem fresh_environments (now : String) :
    (TicketState.fresh now).environments = (TicketState.fresh "").environments := rfl

/-- Effect of `updEnv` on `envAt`. -/
theorem envAt_updEnv (s : StateDict) (key env now : String) (f : EnvState → EnvState)
    (k e : String) :
    envAt (updEnv s key env now f) k e =
      if key = k ∧ env = e then f (envAt s k e) else envAt s k e := by
  unfold updEnv updTicket envAt ticketAt
  rw [alget_alset]
  by_cases hk : key = k
  · subst hk
    cases halget : alget s key <;>
      by_cases he : env = e <;>
        simp [he, alget_alset, TicketState.fresh, EnvState.fresh]
  · simp [hk]

/-- `updEnv` leaves every ticket-level `completed` flag unchanged. -/
theorem tcompleted_updEnv (s : StateDict) (key env now : String)
    (f : EnvState → EnvState) (k : String) :
    (ticketAt (updEnv s key env now f) k).completed = (ticketAt s k).completed := by
  unfold updEnv updTicket ticketAt
  rw [alget_alset]
  by_cases hk : key = k
  · subst hk
    cases halget : alget s key <;> simp [TicketState.fresh]
  · simp [hk]

/-- `updEnv` leaves every `monitor_password` unchanged. -/
theorem pw_updEnv (s : StateDict) (key env now : String)
    (f : EnvState → EnvState) (k : String) :
    (ticketAt (updEnv s key env now f) k).monitor_password =
      (ticketAt s k).monitor_password := by
  unfold updEnv updTicket ticketAt
  rw [alget_alset]
  by_cases hk : key = k
  · subst hk
    cases halget : alget s key <;> simp [TicketState.fresh]
  · simp [hk]

/-- `updTicket` with an environments-preserving mutation leaves every
environment record unchanged. -/
theorem envAt_updTicket (s : StateDict) (key now : String)
    (f : TicketState → TicketState)
    (hf : ∀ t, (f t).environments = t.environments) (k e : String) :
    envAt (updTicket s key now f) k e = envAt s k e := by
  unfold updTicket envAt ticketAt
  rw [alget_alset]
  by_cases hk : key = k
  · subst hk
    cases halget : alget s key <;> simp [hf, TicketState.fresh]
  · simp [hk]

/-- Effect of `mark_step_done` on `is_step_done`. -/
theorem is_step_done_mark (s : StateDict) (key env : String) (n : Nat) (now : String)
    (k e : String) (m : Nat) :
    is_step_done (mark_step_done s key env n now) k e m =
      (is_step_done s k e m || (decide (key = k) && decide (env = e) && decide (n = m))) := by
  unfold is_step_done mark_step_done
  rw [envAt_updEnv]
  by_cases hk : key = k ∧ env = e
  · obtain ⟨hk1, hk2⟩ := hk
    subst hk1; subst hk2
    rw [if_pos (And.intro rfl rfl)]
    by_cases hc : (envAt s key env).steps_done.contains n
    · simp only [if_pos hc]
      by_cases hnm : n = m
      · subst hnm
        simp_all
      · simp [hnm]
    · simp only [if_neg hc]
      by_cases hnm : n = m
      · subst hnm
        simp
      · simp [hnm]
        intro h
        exact absurd h.symm hnm
  · rw [if_neg hk]
    rcases not_and_or.mp hk with h | h <;> simp [h]

/-- `save_tenant` does not change any completed-ordinal set. -/
theorem is_step_done_save_tenant (s : StateDict) (key env : String)
    (t : TenantRecord) (now : String) (k e : String) (m : Nat) :
    is_step_done (save_tenant s key env t now) k e m = is_step_done s k e m := by
  unfold is_step_done save_tenant
  rw [envAt_updEnv]
  split <;> rfl

/-- `save_monitoring_user` does not change any completed-ordinal set. -/
theorem is_step_done_save_monitoring_user (s : StateDict) (key env email now : String)
    (k e : String) (m : Nat) :
    is_step_done (save_monitoring_user s key env email now) k e m =
      is_step_done s k e m := by
  unfold is_step_done save_monitoring_user
  rw [envAt_updEnv]
  split <;> rfl

/-- `mark_env_completed` does not change any completed-ordinal set. -/
theorem is_step_done_mark_env_completed (s : StateDict) (key env now : String)
    (k e : String) (m : Nat) :
    is_step_done (mark_env_completed s key env now) k e m = is_step_done s k e m := by
  unfold is_step_done mark_env_completed
  rw [envAt_updEnv]
  split <;> rfl

/-- `save_monitor_password` does not change any environment record. -/
theorem envAt_save_monitor_password (s : StateDict) (key pw now : String)
    (k e : String) :
    envAt (save_monitor_password s key pw now) k e = envAt s k e := by
  unfold save_monitor_password
  exact envAt_updTicket s key now
    (fun t => { t with monitor_password := some pw }) (fun _ => rfl) k e

/-- `save_monitor_password` does not change any completed-ordinal set. -/
theorem is_step_done_save_monitor_password (s : StateDict) (key pw now : String)
    (k e : String) (m : Nat) :
    is_step_done (save_monitor_password s key pw now) k e m = is_step_done s k e m := by
  unfold is_step_done
  rw [envAt_save_monitor_password]

/-- `mark_completed` does not change any environment record. -/
theorem envAt_mark_completed (s : StateDict) (key now : String) (k e : String) :
    envAt (mark_completed s key now) k e = envAt s k e := by
  unfold mark_completed
  exact envAt_updTicket s key now
    (fun t => { t with completed := true, completed_at := some now }) (fun _ => rfl) k e

/-- `mark_completed` does not change any completed-ordinal set. -/
theorem is_step_done_mark_completed (s : StateDict) (key now : String)
    (k e : String) (m : Nat) :
    is_step_done (mark_completed s key now) k e m = is_step_done s k e m := by
  unfold is_step_done
  rw [envAt_mark_completed]

/-- Effect of `mark_env_completed` on `is_env_completed`. -/
theorem is_env_completed_mark_env_completed (s : StateDict) (key env now : String)
    (k e : String) :
    is_env_completed (mark_env_completed s key env now) k e =
      (is_env_completed s k e || (decide (key = k) && decide (env = e))) := by
  unfold is_env_completed mark_env_completed
  rw [envAt_updEnv]
  by_cases hk : key = k ∧ env = e
  · obtain ⟨hk1, hk2⟩ := hk
    subst hk1; subst hk2
    simp
  · rw [if_neg hk]
    rcases not_and_or.mp hk with h | h <;> simp [h]

/-- Mutations that only touch `tenant`, `monitoring_user` or `steps_done`
leave `is_env_completed` unchanged. -/
theorem is_env_completed_mark_step_done (s : StateDict) (key env : String) (n : Nat)
    (now : String) (k e : String) :
    is_env_completed (mark_step_done s key env n now) k e = is_env_completed s k e := by
  unfold is_env_completed mark_step_done
  rw [envAt_updEnv]
  split
  · split <;> rfl
  · rfl

theorem is_env_completed_save_tenant (s : StateDict) (key env : String)
    (t : TenantRecord) (now : String) (k e : String) :
    is_env_completed (save_tenant s key env t now) k e = is_env_completed s k e := by
  unfold is_env_completed save_tenant
  rw [envAt_updEnv]
  split <;> rfl

theorem is_env_completed_save_monitoring_user (s : StateDict) (key env email now : String)
    (k e : String) :
    is_env_completed (save_monitoring_user s key env email now) k e =
      is_env_completed s k e := by
  unfold is_env_completed save_monitoring_user
  rw [envAt_updEnv]
  split <;> rfl

theorem is_env_completed_save_monitor_password (s : StateDict) (key pw now : String)
    (k e : String) :
    is_env_completed (save_monitor_password s key pw now) k e = is_env_completed s k e := by
  unfold is_env_completed
  rw [envAt_save_monitor_password]

/-- Effect of `mark_completed` on the ticket-level `completed` flag. -/
theorem tcompleted_mark_completed (s : StateDict) (key now : String) (k : String) :
    (ticketAt (mark_completed s key now) k).completed =
      ((ticketAt s k).completed || decide (key = k)) := by
  unfold mark_completed updTicket ticketAt
  rw [alget_alset]
  by_cases hk : key = k
  · subst hk
    cases halget : alget s key <;> simp
  · simp [hk]

/-- `save_monitor_password` leaves every ticket-level `completed` flag
unchanged. -/
theorem tcompleted_save_monitor_password (s : StateDict) (key pw now : String)
    (k : String) :
    (ticketAt (save_monitor_password s key pw now) k).completed =
      (ticketAt s k).completed := by
  unfold save_monitor_password updTicket ticketAt
  rw [alget_alset]
  by_cases hk : key = k
  · subst hk
    cases halget : alget s key <;> simp [TicketState.fresh]
  · simp [hk]

/-- `mark_step_done` on an already-present ordinal is the identity on the
state (`StateManager.mark_step_done` appends only when absent, and
`_ticket`/`_env` find the existing records). -/
theorem mark_step_done_id (s : StateDict) (key env : String) (n : Nat) (now : String)
    (h : is_step_done s key env n = true) :
    mark_step_done s key env n now = s := by
  unfold is_step_done at h
  have htk : ∃ t, alget s key = some t := by
    cases htk : alget s key with
    | none =>
        rw [envAt, ticketAt, htk] at h
        simp [TicketState.fresh, EnvState.fresh, alget] at h
    | some t => exact ⟨t, rfl⟩
  obtain ⟨t, ht⟩ := htk
  have henv : ∃ es, alget t.environments env = some es := by
    cases henv : alget t.environments env with
    | none => rw [envAt, ticketAt, ht] at h; simp [henv, EnvState.fresh] at h
    | some es => exact ⟨es, rfl⟩
  obtain ⟨es, hes⟩ := henv
  have hcontains : es.steps_done.contains n = true := by
    rw [envAt, ticketAt, ht] at h
    simpa [hes] using h
  unfold mark_step_done updEnv updTicket
  rw [ht]
  simp only [Option.getD_some, hes, hcontains, if_true]
  rw [alset_self t.environments env es hes]
  exact alset_self s key t ht

/-- `tcompleted` corollaries for the `updEnv`-based mutations. -/
theorem tcompleted_mark_step_done (s : StateDict) (key env : String) (n : Nat)
    (now : String) (k : String) :
    (ticketAt (mark_step_done s key env n now) k).completed = (ticketAt s k).completed :=
  tcompleted_updEnv s key env now _ k

theorem tcompleted_save_tenant (s : StateDict) (key env : String) (t : TenantRecord)
    (now : String) (k : String) :
    (ticketAt (save_tenant s key env t now) k).completed = (ticketAt s k).completed :=
  tcompleted_updEnv s key env now _ k

theorem tcompleted_save_monitoring_user (s : StateDict) (key env email now : String)
    (k : String) :
    (ticketAt (save_monitoring_user s key env email now) k).completed =
      (ticketAt s k).completed :=
  tcompleted_updEnv s key env now _ k

theorem tcompleted_mark_env_completed (s : StateDict) (key env now : String)
    (k : String) :
    (ticketAt (mark_env_completed s key env now) k).completed =
      (ticketAt s k).completed :=
  tcompleted_updEnv s key env now _ k

end StateManager

/-! ## Per-step lemmas -/

/-- An event attributable to step `J`: any prompt, side-effecting action
or main external call it carries belongs to step `J`, and it is not a
Jira effect. -/
def stepEvent (J : Nat) (e : Event) : Prop :=
  (∀ k, Event.isPromptFor k e = true → k = J) ∧
  (∀ k, Event.isActionFor k e = true → k = J) ∧
  (∀ k, Event.isStepCallFor k e = true → k = J) ∧
  Event.isJira e = false

theorem stepEvent_promptStep (J : Nat) : stepEvent J (.promptStep J) := by
  refine ⟨?_, ?_, ?_, rfl⟩ <;> intro k hk <;>
    simp [Event.isPromptFor, Event.isActionFor, Event.isStepCallFor] at hk <;> omega

theorem stepEvent_skipRender (J m : Nat) : stepEvent J (.skipRender m) := by
  refine ⟨?_, ?_, ?_, rfl⟩ <;> intro k hk <;>
    simp [Event.isPromptFor, Event.isActionFor, Event.isStepCallFor] at hk

theorem stepEvent_acct (J : Nat) (em : String) :
    stepEvent J (.pgGetUserAccountType em) := by
  refine ⟨?_, ?_, ?_, rfl⟩ <;> intro k hk <;>
    simp [Event.isPromptFor, Event.isActionFor, Event.isStepCallFor] at hk

theorem stepEvent_roleIds (J : Nat) (tid : String) :
    stepEvent J (.pgGetRoleIds tid) := by
  refine ⟨?_, ?_, ?_, rfl⟩ <;> intro k hk <;>
    simp [Event.isPromptFor, Event.isActionFor, Event.isStepCallFor] at hk

theorem stepEvent_groupIds (J : Nat) (tid : String) :
    stepEvent J (.pgGetGroupIds tid) := by
  refine ⟨?_, ?_, ?_, rfl⟩ <;> intro k hk <;>
    simp [Event.isPromptFor, Event.isActionFor, Event.isStepCallFor] at hk

theorem stepEvent_api (em : String) (b : Bool) :
    stepEvent 1 (.onboardApiCall em b) := by
  refine ⟨?_, ?_, ?_, rfl⟩ <;> intro k hk <;>
    simp [Event.isPromptFor, Event.isActionFor, Event.isStepCallFor] at hk <;> omega

theorem stepEvent_getTenant (d : String) (b : Bool) :
    stepEvent 2 (.pgGetTenant d b) := by
  refine ⟨?_, ?_, ?_, rfl⟩ <;> intro k hk <;>
    simp [Event.isPromptFor, Event.isActionFor, Event.isStepCallFor] at hk <;> omega

theorem stepEvent_create (em : String) (b : Bool) :
    stepEvent 3 (.pgCreateMonitoringUser em b) := by
  refine ⟨?_, ?_, ?_, rfl⟩ <;> intro k hk <;>
    simp [Event.isPromptFor, Event.isActionFor, Event.isStepCallFor] at hk <;> omega

theorem stepEvent_apply (d : String) (b : Bool) :
    stepEvent 4 (.pgApplyUpdates d b) := by
  refine ⟨?_, ?_, ?_, rfl⟩ <;> intro k hk <;>
    simp [Event.isPromptFor, Event.isActionFor, Event.isStepCallFor] at hk <;> omega

theorem stepEvent_merge (b : Bool) : stepEvent 5 (.neo4jMergeTenant b) := by
  refine ⟨?_, ?_, ?_, rfl⟩ <;> intro k hk <;>
    simp [Event.isPromptFor, Event.isActionFor, Event.isStepCallFor] at hk <;> omega

/-! ### Step 5 -/

theorem step5_events (w : World) (op : Nat → Bool) (key env_name : String)
    (tenant : TenantRecord) (now : String) (s : StateDict) :
    ∀ e ∈ (step5 w op key env_name tenant now s).tr, stepEvent 5 e := by
  intro e he
  unfold step5 at he
  split at he
  · simp at he
    subst he
    exact stepEvent_skipRender 5 5
  · split at he
    · simp at he
      subst he
      exact stepEvent_promptStep 5
    · split at he <;> simp at he <;>
        rcases he with he | he <;> subst he
      · exact stepEvent_promptStep 5
      · exact stepEvent_merge false
      · exact stepEvent_promptStep 5
      · exact stepEvent_merge true

theorem step5_mono (w : World) (op : Nat → Bool) (key env_name : String)
    (tenant : TenantRecord) (now : String) (s : StateDict) (n : Nat)
    (h : StateManager.is_step_done s key env_name n = true) :
    StateManager.is_step_done (step5 w op key env_name tenant now s).st key env_name n
      = true := by
  unfold step5
  split
  · exact h
  · split
    · exact h
    · split <;> simp [StateManager.is_step_done_mark, h]

theorem step5_other (w : World) (op : Nat → Bool) (key env_name : String)
    (tenant : TenantRecord) (now : String) (s : StateDict) (n : Nat) (hn : n ≠ 5) :
    StateManager.is_step_done (step5 w op key env_name tenant now s).st key env_name n
      = StateManager.is_step_done s key env_name n := by
  unfold step5
  have h5n : (5 : Nat) ≠ n := Ne.symm hn
  split
  · rfl
  · split
    · rfl
    · split <;> simp [StateManager.is_step_done_mark, h5n]

theorem step5_done (w : World) (op : Nat → Bool) (key env_name : String)
    (tenant : TenantRecord) (now : String) (s : StateDict)
    (h : StateManager.is_step_done s key env_name 5 = true) :
    step5 w op key env_name tenant now s = ⟨[.skipRender 5], s, .ok ()⟩ := by
  unfold step5
  rw [if_pos h]

theorem step5_fail (w : World) (op : Nat → Bool) (key env_name : String)
    (tenant : TenantRecord) (now : String) (s : StateDict)
    (h : ∃ e ∈ (step5 w op key env_name tenant now s).tr,
      Event.isStepCallFor 5 e = true ∧ Event.actionOk e = false) :
    (∃ m, (step5 w op key env_name tenant now s).val = .error (.failure m)) ∧
      (step5 w op key env_name tenant now s).st = s := by
  unfold step5 at h ⊢
  by_cases h5 : StateManager.is_step_done s key env_name 5 = true
  · rw [if_pos h5] at h
    simp [Event.isStepCallFor] at h
  · rw [if_neg h5] at h ⊢
    by_cases hop : (!op 5) = true
    · rw [if_pos hop] at h
      simp [Event.isStepCallFor] at h
    · rw [if_neg hop] at h ⊢
      cases hm : w.merge_tenant tenant with
      | error m => exact ⟨⟨m, rfl⟩, rfl⟩
      | ok u =>
          rw [hm] at h
          simp [Event.isStepCallFor, Event.actionOk] at h

theorem step5_mark (w : World) (op : Nat → Bool) (key env_name : String)
    (tenant : TenantRecord) (now : String) (s : StateDict)
    (h : StateManager.is_step_done (step5 w op key env_name tenant now s).st
      key env_name 5 = true) :
    StateManager.is_step_done s key env_name 5 = true ∨
      ∃ e ∈ (step5 w op key env_name tenant now s).tr,
        Event.isStepCallFor 5 e = true ∧ Event.actionOk e = true := by
  unfold step5 at h ⊢
  by_cases h5 : StateManager.is_step_done s key env_name 5 = true
  · exact Or.inl h5
  · rw [if_neg h5] at h ⊢
    by_cases hop : (!op 5) = true
    · rw [if_pos hop] at h
      exact Or.inl h
    · rw [if_neg hop] at h ⊢
      cases hm : w.merge_tenant tenant with
      | error m =>
          rw [hm] at h
          exact Or.inl h
      | ok u =>
          exact Or.inr ⟨.neo4jMergeTenant true, by
            simp [Event.isStepCallFor, Event.actionOk]⟩

/-- An event attributable to step `J` carries no prompt or action of a
different step `k`. -/
theorem stepEvent_ne {J k : Nat} (hk : k ≠ J) {e : Event} (he : stepEvent J e) :
    Event.isPromptFor k e = false ∧ Event.isActionFor k e = false := by
  obtain ⟨h1, h2, _, _⟩ := he
  constructor
  · cases hh : Event.isPromptFor k e
    · rfl
    · exact absurd (h1 k hh) hk
  · cases hh : Event.isActionFor k e
    · rfl
    · exact absurd (h2 k hh) hk

/-! ### Step 1 and its loops -/

theorem classifyUsers_events (w : World) (us : List UserRec) :
    ∀ e ∈ (classifyUsers w us).1, ∃ em, e = .pgGetUserAccountType em := by
  induction us with
  | nil => intro e he; simp [classifyUsers] at he
  | cons u rest ih =>
    intro e he
    unfold classifyUsers at he
    cases ha : w.get_user_account_type u.email with
    | error m =>
        rw [ha] at he
        simp at he
        exact ⟨u.email, he⟩
    | ok acct =>
        rw [ha] at he
        simp at he
        rcases he with he | he
        · exact ⟨u.email, he⟩
        · exact ih e he

theorem callApis_events (w : World) (us : List UserRec) :
    ∀ e ∈ (callApis w us).1, ∃ em b, e = .onboardApiCall em b := by
  induction us with
  | nil => intro e he; simp [callApis] at he
  | cons u rest ih =>
    intro e he
    unfold callApis at he
    cases ha : w.call_onboard_api u.email with
    | error m =>
        rw [ha] at he
        simp at he
        exact ⟨u.email, false, he⟩
    | ok x =>
        rw [ha] at he
        simp at he
        rcases he with he | he
        · exact ⟨u.email, true, he⟩
        · exact ih e he

theorem callApis_ok (w : World) (us : List UserRec) (x : Unit)
    (hok : (callApis w us).2 = .ok x) :
    ∀ e ∈ (callApis w us).1, Event.actionOk e = true := by
  induction us with
  | nil => intro e he; simp [callApis] at he
  | cons u rest ih =>
    intro e he
    unfold callApis at he hok
    cases ha : w.call_onboard_api u.email with
    | error m =>
        rw [ha] at hok
        simp at hok
    | ok y =>
        rw [ha] at he hok
        simp at he hok
        rcases he with he | he
        · subst he
          rfl
        · exact ih hok e he

theorem step1_events (w : World) (op : Nat → Bool) (users : List UserRec)
    (key env_name now : String) (s : StateDict) :
    ∀ e ∈ (step1 w op users key env_name now s).tr, stepEvent 1 e := by
  intro e he
  unfold step1 at he
  dsimp only [] at he
  split at he
  · simp at he
    subst he
    exact stepEvent_skipRender 1 1
  · rcases hcl : classifyUsers w users with ⟨trc, rc⟩
    rw [hcl] at he
    cases rc with
    | error m =>
        dsimp only [] at he
        obtain ⟨em, hem⟩ := classifyUsers_events w users e (by rw [hcl]; exact he)
        subst hem
        exact stepEvent_acct 1 em
    | ok p =>
      obtain ⟨new_users, existing⟩ := p
      dsimp only [] at he
      split at he
      · obtain ⟨em, hem⟩ := classifyUsers_events w users e (by rw [hcl]; exact he)
        subst hem
        exact stepEvent_acct 1 em
      · split at he
        · simp at he
          rcases he with he | he
          · obtain ⟨em, hem⟩ := classifyUsers_events w users e (by rw [hcl]; simpa using he)
            subst hem
            exact stepEvent_acct 1 em
          · subst he
            exact stepEvent_promptStep 1
        · rcases hca : callApis w new_users with ⟨tra, ra⟩
          rw [hca] at he
          cases ra with
          | error m =>
              dsimp only [] at he
              simp at he
              rcases he with he | he | he
              · obtain ⟨em, hem⟩ :=
                  classifyUsers_events w users e (by rw [hcl]; simpa using he)
                subst hem
                exact stepEvent_acct 1 em
              · subst he
                exact stepEvent_promptStep 1
              · obtain ⟨em, b, hem⟩ :=
                  callApis_events w new_users e (by rw [hca]; simpa using he)
                subst hem
                exact stepEvent_api em b
          | ok x =>
              dsimp only [] at he
              simp at he
              rcases he with he | he | he
              · obtain ⟨em, hem⟩ :=
                  classifyUsers_events w users e (by rw [hcl]; simpa using he)
                subst hem
                exact stepEvent_acct 1 em
              · subst he
                exact stepEvent_promptStep 1
              · obtain ⟨em, b, hem⟩ :=
                  callApis_events w new_users e (by rw [hca]; simpa using he)
                subst hem
                exact stepEvent_api em b

theorem step1_mono (w : World) (op : Nat → Bool) (users : List UserRec)
    (key env_name now : String) (s : StateDict) (n : Nat)
    (h : StateManager.is_step_done s key env_name n = true) :
    StateManager.is_step_done (step1 w op users key env_name now s).st key env_name n
      = true := by
  have hmark : ∀ s1 : StateDict, StateManager.is_step_done s1 key env_name n = true →
      StateManager.is_step_done
        (StateManager.mark_step_done s1 key env_name 1 now) key env_name n = true := by
    intro s1 h1
    simp [StateManager.is_step_done_mark, h1]
  unfold step1
  cases hres : resolve_domain env_name with
  | error m =>
      dsimp only []
      rw [if_pos (by simp [StateManager.is_step_done_mark])]
      exact hmark s h
  | ok d =>
      dsimp only []
      by_cases h1 : StateManager.is_step_done s key env_name 1 = true
      · rw [if_pos h1]
        exact h
      · rw [if_neg h1]
        rcases hcl : classifyUsers w users with ⟨trc, rc⟩
        cases rc with
        | error m => exact h
        | ok p =>
          obtain ⟨new_users, existing⟩ := p
          dsimp only []
          by_cases hne : new_users.isEmpty = true
          · rw [if_pos hne]
            exact hmark s h
          · rw [if_neg hne]
            by_cases hop : (!op 1) = true
            · rw [if_pos hop]
              exact h
            · rw [if_neg hop]
              rcases hca : callApis w new_users with ⟨tra, ra⟩
              cases ra with
              | error m => exact h
              | ok x => exact hmark s h

theorem step1_other (w : World) (op : Nat → Bool) (users : List UserRec)
    (key env_name now : String) (s : StateDict) (n : Nat) (hn : n ≠ 1) :
    StateManager.is_step_done (step1 w op users key env_name now s).st key env_name n
      = StateManager.is_step_done s key env_name n := by
  have h1n : (1 : Nat) ≠ n := Ne.symm hn
  have hmark : ∀ s1 : StateDict,
      StateManager.is_step_done (StateManager.mark_step_done s1 key env_name 1 now)
        key env_name n = StateManager.is_step_done s1 key env_name n := by
    intro s1
    simp [StateManager.is_step_done_mark, h1n]
  unfold step1
  cases hres : resolve_domain env_name with
  | error m =>
      dsimp only []
      rw [if_pos (by simp [StateManager.is_step_done_mark])]
      exact hmark s
  | ok d =>
      dsimp only []
      by_cases h1 : StateManager.is_step_done s key env_name 1 = true
      · rw [if_pos h1]
      · rw [if_neg h1]
        rcases hcl : classifyUsers w users with ⟨trc, rc⟩
        cases rc with
        | error m => rfl
        | ok p =>
          obtain ⟨new_users, existing⟩ := p
          dsimp only []
          by_cases hne : new_users.isEmpty = true
          · rw [if_pos hne]
            exact hmark s
          · rw [if_neg hne]
            by_cases hop : (!op 1) = true
            · rw [if_pos hop]
            · rw [if_neg hop]
              rcases hca : callApis w new_users with ⟨tra, ra⟩
              cases ra with
              | error m => rfl
              | ok x => exact hmark s

theorem step1_done (w : World) (op : Nat → Bool) (users : List UserRec)
    (key env_name now : String) (s : StateDict)
    (h : StateManager.is_step_done s key env_name 1 = true) :
    step1 w op users key env_name now s = ⟨[.skipRender 1], s, .ok ()⟩ := by
  unfold step1
  cases hres : resolve_domain env_name with
  | ok d =>
      dsimp only []
      rw [if_pos h]
  | error m =>
      dsimp only []
      rw [StateManager.mark_step_done_id s key env_name 1 now h, if_pos h]

/-- When domain resolution fails, step 1 auto-marks itself done and renders
the skip indicator. -/
theorem step1_resolve_error (w : World) (op : Nat → Bool) (users : List UserRec)
    (key env_name now : String) (s : StateDict) (m : String)
    (hres : resolve_domain env_name = .error m) :
    step1 w op users key env_name now s =
      ⟨[.skipRender 1], StateManager.mark_step_done s key env_name 1 now, .ok ()⟩ := by
  unfold step1
  rw [hres]
  dsimp only []
  rw [if_pos (by simp [StateManager.is_step_done_mark])]

theorem step1_fail (w : World) (op : Nat → Bool) (users : List UserRec)
    (key env_name now : String) (s : StateDict)
    (h : ∃ e ∈ (step1 w op users key env_name now s).tr,
      Event.isStepCallFor 1 e = true ∧ Event.actionOk e = false) :
    (∃ m, (step1 w op users key env_name now s).val = .error (.failure m)) ∧
      (step1 w op users key env_name now s).st = s := by
  unfold step1 at h ⊢
  cases hres : resolve_domain env_name with
  | error m =>
      rw [hres] at h
      dsimp only [] at h ⊢
      rw [if_pos (by simp [StateManager.is_step_done_mark])] at h
      simp [Event.isStepCallFor] at h
  | ok d =>
      rw [hres] at h
      dsimp only [] at h ⊢
      by_cases h1 : StateManager.is_step_done s key env_name 1 = true
      · rw [if_pos h1] at h
        simp [Event.isStepCallFor] at h
      · rw [if_neg h1] at h ⊢
        rcases hcl : classifyUsers w users with ⟨trc, rc⟩
        try rw [hcl] at h
        try rw [hcl]
        cases rc with
        | error m =>
            dsimp only [] at h
            obtain ⟨e, he, hcall, _⟩ := h
            obtain ⟨em, hem⟩ := classifyUsers_events w users e (by rw [hcl]; exact he)
            subst hem
            simp [Event.isStepCallFor] at hcall
        | ok p =>
          obtain ⟨new_users, existing⟩ := p
          dsimp only [] at h ⊢
          by_cases hne : new_users.isEmpty = true
          · rw [if_pos hne] at h
            obtain ⟨e, he, hcall, _⟩ := h
            obtain ⟨em, hem⟩ := classifyUsers_events w users e (by rw [hcl]; exact he)
            subst hem
            simp [Event.isStepCallFor] at hcall
          · rw [if_neg hne] at h ⊢
            by_cases hop : (!op 1) = true
            · rw [if_pos hop] at h
              obtain ⟨e, he, hcall, _⟩ := h
              simp at he
              rcases he with he | he
              · obtain ⟨em, hem⟩ :=
                  classifyUsers_events w users e (by rw [hcl]; simpa using he)
                subst hem
                simp [Event.isStepCallFor] at hcall
              · subst he
                simp [Event.isStepCallFor] at hcall
            · rw [if_neg hop] at h ⊢
              rcases hca : callApis w new_users with ⟨tra, ra⟩
              try rw [hca] at h
              try rw [hca]
              cases ra with
              | error m => exact ⟨⟨m, rfl⟩, rfl⟩
              | ok x =>
                  dsimp only [] at h
                  obtain ⟨e, he, hcall, hok⟩ := h
                  simp at he
                  rcases he with he | he | he
                  · obtain ⟨em, hem⟩ :=
                      classifyUsers_events w users e (by rw [hcl]; simpa using he)
                    subst hem
                    simp [Event.isStepCallFor] at hcall
                  · subst he
                    simp [Event.isStepCallFor] at hcall
                  · have := callApis_ok w new_users x (by rw [hca]) e (by rw [hca]; simpa using he)
                    rw [this] at hok
                    exact absurd hok (by simp)

theorem step1_tcompleted (w : World) (op : Nat → Bool) (users : List UserRec)
    (key env_name now : String) (s : StateDict) (k : String) :
    (StateManager.ticketAt (step1 w op users key env_name now s).st k).completed =
      (StateManager.ticketAt s k).completed := by
  have hmark : ∀ s1 : StateDict,
      (StateManager.ticketAt (StateManager.mark_step_done s1 key env_name 1 now)
        k).completed = (StateManager.ticketAt s1 k).completed := by
    intro s1
    simp [StateManager.tcompleted_mark_step_done]
  unfold step1
  cases hres : resolve_domain env_name with
  | error m =>
      dsimp only []
      rw [if_pos (by simp [StateManager.is_step_done_mark])]
      exact hmark s
  | ok d =>
      dsimp only []
      by_cases h1 : StateManager.is_step_done s key env_name 1 = true
      · rw [if_pos h1]
      · rw [if_neg h1]
        rcases hcl : classifyUsers w users with ⟨trc, rc⟩
        cases rc with
        | error m => rfl
        | ok p =>
          obtain ⟨new_users, existing⟩ := p
          dsimp only []
          by_cases hne : new_users.isEmpty = true
          · rw [if_pos hne]
            exact hmark s
          · rw [if_neg hne]
            by_cases hop : (!op 1) = true
            · rw [if_pos hop]
            · rw [if_neg hop]
              rcases hca : callApis w new_users with ⟨tra, ra⟩
              cases ra with
              | error m => rfl
              | ok x => exact hmark s

/-! ### Step 2 -/

theorem step2_events (w : World) (op : Nat → Bool) (key env_name email_domain now : String)
    (s : StateDict) :
    ∀ e ∈ (step2 w op key env_name email_domain now s).tr, stepEvent 2 e := by
  intro e he
  unfold step2 at he
  split at he
  · split at he
    · simp at he
      subst he
      exact stepEvent_skipRender 2 2
    · split at he <;> simp at he
      · subst he
        exact stepEvent_getTenant email_domain false
      · rcases he with he | he <;> subst he
        · exact stepEvent_getTenant email_domain true
        · exact stepEvent_skipRender 2 2
  · split at he
    · simp at he
      subst he
      exact stepEvent_promptStep 2
    · split at he <;> simp at he <;>
        rcases he with he | he <;> subst he
      · exact stepEvent_promptStep 2
      · exact stepEvent_getTenant email_domain false
      · exact stepEvent_promptStep 2
      · exact stepEvent_getTenant email_domain true

theorem step2_mono (w : World) (op : Nat → Bool) (key env_name email_domain now : String)
    (s : StateDict) (n : Nat)
    (h : StateManager.is_step_done s key env_name n = true) :
    StateManager.is_step_done (step2 w op key env_name email_domain now s).st
      key env_name n = true := by
  unfold step2
  split
  · split
    · exact h
    · split <;> exact h
  · split
    · exact h
    · split
      · exact h
      · simp [StateManager.is_step_done_save_tenant, StateManager.is_step_done_mark, h]

theorem step2_other (w : World) (op : Nat → Bool) (key env_name email_domain now : String)
    (s : StateDict) (n : Nat) (hn : n ≠ 2) :
    StateManager.is_step_done (step2 w op key env_name email_domain now s).st
      key env_name n = StateManager.is_step_done s key env_name n := by
  unfold step2
  have h2n : (2 : Nat) ≠ n := Ne.symm hn
  split
  · split
    · rfl
    · split <;> rfl
  · split
    · rfl
    · split
      · rfl
      · simp [StateManager.is_step_done_save_tenant, StateManager.is_step_done_mark, h2n]

theorem step2_done (w : World) (op : Nat → Bool) (key env_name email_domain now : String)
    (s : StateDict) (h : StateManager.is_step_done s key env_name 2 = true) :
    (step2 w op key env_name email_domain now s).st = s ∧
    (∀ e ∈ (step2 w op key env_name email_domain now s).tr,
      Event.isPromptFor 2 e = false ∧ Event.isActionFor 2 e = false) ∧
    (∀ t, (step2 w op key env_name email_domain now s).val = .ok t →
      Event.skipRender 2 ∈ (step2 w op key env_name email_domain now s).tr) := by
  unfold step2
  rw [if_pos h]
  cases hc : StateManager.get_tenant s key env_name with
  | some t =>
      refine ⟨rfl, ?_, ?_⟩
      · intro e he
        simp at he
        subst he
        simp [Event.isPromptFor, Event.isActionFor]
      · intro t' _
        simp
  | none =>
      cases hw : w.get_tenant email_domain with
      | error m =>
          refine ⟨rfl, ?_, ?_⟩
          · intro e he
            simp at he
            subst he
            simp [Event.isPromptFor, Event.isActionFor]
          · intro t' ht'
            simp at ht'
      | ok t =>
          refine ⟨rfl, ?_, ?_⟩
          · intro e he
            simp at he
            rcases he with he | he <;> subst he <;>
              simp [Event.isPromptFor, Event.isActionFor]
          · intro t' _
            simp

theorem step2_fail (w : World) (op : Nat → Bool) (key env_name email_domain now : String)
    (s : StateDict)
    (h : ∃ e ∈ (step2 w op key env_name email_domain now s).tr,
      Event.isStepCallFor 2 e = true ∧ Event.actionOk e = false) :
    (∃ m, (step2 w op key env_name email_domain now s).val = .error (.failure m)) ∧
      (step2 w op key env_name email_domain now s).st = s := by
  unfold step2 at h ⊢
  by_cases h2 : StateManager.is_step_done s key env_name 2 = true
  · rw [if_pos h2] at h ⊢
    cases hc : StateManager.get_tenant s key env_name with
    | some t =>
        rw [hc] at h
        simp [Event.isStepCallFor] at h
    | none =>
        rw [hc] at h
        cases hw : w.get_tenant email_domain with
        | error m => exact ⟨⟨m, rfl⟩, rfl⟩
        | ok t =>
            rw [hw] at h
            simp [Event.isStepCallFor, Event.actionOk] at h
  · rw [if_neg h2] at h ⊢
    by_cases hop : (!op 2) = true
    · rw [if_pos hop] at h
      simp [Event.isStepCallFor] at h
    · rw [if_neg hop] at h ⊢
      cases hw : w.get_tenant email_domain with
      | error m => exact ⟨⟨m, rfl⟩, rfl⟩
      | ok t =>
          rw [hw] at h
          simp [Event.isStepCallFor, Event.actionOk] at h

theorem step2_mark (w : World) (op : Nat → Bool) (key env_name email_domain now : String)
    (s : StateDict)
    (h : StateManager.is_step_done (step2 w op key env_name email_domain now s).st
      key env_name 2 = true) :
    StateManager.is_step_done s key env_name 2 = true ∨
      ∃ e ∈ (step2 w op key env_name email_domain now s).tr,
        Event.isStepCallFor 2 e = true ∧ Event.actionOk e = true := by
  unfold step2 at h ⊢
  by_cases h2 : StateManager.is_step_done s key env_name 2 = true
  · exact Or.inl h2
  · rw [if_neg h2] at h ⊢
    by_cases hop : (!op 2) = true
    · rw [if_pos hop] at h
      exact Or.inl h
    · rw [if_neg hop] at h ⊢
      cases hw : w.get_tenant email_domain with
      | error m =>
          rw [hw] at h
          exact Or.inl h
      | ok t =>
          exact Or.inr ⟨.pgGetTenant email_domain true, by
            simp [Event.isStepCallFor, Event.actionOk]⟩

theorem step2_tcompleted (w : World) (op : Nat → Bool)
    (key env_name email_domain now : String) (s : StateDict) (k : String) :
    (StateManager.ticketAt (step2 w op key env_name email_domain now s).st k).completed =
      (StateManager.ticketAt s k).completed := by
  unfold step2
  split
  · split
    · rfl
    · split <;> rfl
  · split
    · rfl
    · split
      · rfl
      · simp [StateManager.tcompleted_save_tenant, StateManager.tcompleted_mark_step_done]

/-- Whatever the state and world, step 2 leaves a trace witnessing that the
sequence reached it. -/
theorem step2_started (w : World) (op : Nat → Bool)
    (key env_name email_domain now : String) (s : StateDict) :
    ∃ e ∈ (step2 w op key env_name email_domain now s).tr,
      e = .skipRender 2 ∨ e = .promptStep 2 ∨ ∃ b, e = .pgGetTenant email_domain b := by
  unfold step2
  split
  · split
    · exact ⟨.skipRender 2, by simp⟩
    · split
      · exact ⟨.pgGetTenant email_domain false, by simp⟩
      · exact ⟨.skipRender 2, by simp⟩
  · split
    · exact ⟨.promptStep 2, by simp⟩
    · split
      · exact ⟨.promptStep 2, by simp⟩
      · exact ⟨.promptStep 2, by simp⟩

/-! ### Step 4 -/

theorem step4_events (w : World) (op : Nat → Bool) (key env_name email_domain now : String)
    (s : StateDict) :
    ∀ e ∈ (step4 w op key env_name email_domain now s).tr, stepEvent 4 e := by
  intro e he
  unfold step4 at he
  split at he
  · simp at he
    subst he
    exact stepEvent_skipRender 4 4
  · split at he
    · simp at he
      subst he
      exact stepEvent_promptStep 4
    · split at he <;> simp at he <;>
        rcases he with he | he <;> subst he
      · exact stepEvent_promptStep 4
      · exact stepEvent_apply email_domain false
      · exact stepEvent_promptStep 4
      · exact stepEvent_apply email_domain true

theorem step4_mono (w : World) (op : Nat → Bool) (key env_name email_domain now : String)
    (s : StateDict) (n : Nat)
    (h : StateManager.is_step_done s key env_name n = true) :
    StateManager.is_step_done (step4 w op key env_name email_domain now s).st
      key env_name n = true := by
  unfold step4
  split
  · exact h
  · split
    · exact h
    · split <;> simp [StateManager.is_step_done_mark, h]

theorem step4_other (w : World) (op : Nat → Bool) (key env_name email_domain now : String)
    (s : StateDict) (n : Nat) (hn : n ≠ 4) :
    StateManager.is_step_done (step4 w op key env_name email_domain now s).st
      key env_name n = StateManager.is_step_done s key env_name n := by
  unfold step4
  have h4n : (4 : Nat) ≠ n := Ne.symm hn
  split
  · rfl
  · split
    · rfl
    · split <;> simp [StateManager.is_step_done_mark, h4n]

theorem step4_done (w : World) (op : Nat → Bool) (key env_name email_domain now : String)
    (s : StateDict) (h : StateManager.is_step_done s key env_name 4 = true) :
    step4 w op key env_name email_domain now s = ⟨[.skipRender 4], s, .ok ()⟩ := by
  unfold step4
  rw [if_pos h]

theorem step4_fail (w : World) (op : Nat → Bool) (key env_name email_domain now : String)
    (s : StateDict)
    (h : ∃ e ∈ (step4 w op key env_name email_domain now s).tr,
      Event.isStepCallFor 4 e = true ∧ Event.actionOk e = false) :
    (∃ m, (step4 w op key env_name email_domain now s).val = .error (.failure m)) ∧
      (step4 w op key env_name email_domain now s).st = s := by
  unfold step4 at h ⊢
  by_cases h4 : StateManager.is_step_done s key env_name 4 = true
  · rw [if_pos h4] at h
    simp [Event.isStepCallFor] at h
  · rw [if_neg h4] at h ⊢
    by_cases hop : (!op 4) = true
    · rw [if_pos hop] at h
      simp [Event.isStepCallFor] at h
    · rw [if_neg hop] at h ⊢
      cases hm : w.apply_onboarding_updates email_domain with
      | error m => exact ⟨⟨m, rfl⟩, rfl⟩
      | ok u =>
          rw [hm] at h
          simp [Event.isStepCallFor, Event.actionOk] at h

theorem step4_mark (w : World) (op : Nat → Bool) (key env_name email_domain now : String)
    (s : StateDict)
    (h : StateManager.is_step_done (step4 w op key env_name email_domain now s).st
      key env_name 4 = true) :
    StateManager.is_step_done s key env_name 4 = true ∨
      ∃ e ∈ (step4 w op key env_name email_domain now s).tr,
        Event.isStepCallFor 4 e = true ∧ Event.actionOk e = true := by
  unfold step4 at h ⊢
  by_cases h4 : StateManager.is_step_done s key env_name 4 = true
  · exact Or.inl h4
  · rw [if_neg h4] at h ⊢
    by_cases hop : (!op 4) = true
    · rw [if_pos hop] at h
      exact Or.inl h
    · rw [if_neg hop] at h ⊢
      cases hm : w.apply_onboarding_updates email_domain with
      | error m =>
          rw [hm] at h
          exact Or.inl h
      | ok u =>
          exact Or.inr ⟨.pgApplyUpdates email_domain true, by
            simp [Event.isStepCallFor, Event.actionOk]⟩

theorem step4_tcompleted (w : World) (op : Nat → Bool)
    (key env_name email_domain now : String) (s : StateDict) (k : String) :
    (StateManager.ticketAt (step4 w op key env_name email_domain now s).st k).completed =
      (StateManager.ticketAt s k).completed := by
  unfold step4
  split
  · rfl
  · split
    · rfl
    · split <;> simp [StateManager.tcompleted_mark_step_done]

/-! ### Step 3 -/

theorem step3_events (w : World) (op : Nat → Bool) (key env_name : String)
    (tenant : TenantRecord) (email_domain monitor_pw now : String) (s : StateDict) :
    ∀ e ∈ (step3 w op key env_name tenant email_domain monitor_pw now s).tr,
      stepEvent 3 e := by
  intro e he
  simp only [step3] at he
  split at he
  · simp at he
    subst he
    exact stepEvent_skipRender 3 3
  · split at he
    · simp at he
      subst he
      exact stepEvent_roleIds 3 tenant.id
    · split at he
      · simp at he
        rcases he with he | he <;> subst he
        · exact stepEvent_roleIds 3 tenant.id
        · exact stepEvent_groupIds 3 tenant.id
      · split at he
        · simp at he
          rcases he with he | he | he <;> subst he
          · exact stepEvent_roleIds 3 tenant.id
          · exact stepEvent_groupIds 3 tenant.id
          · exact stepEvent_promptStep 3
        · split at he <;> simp at he <;>
            rcases he with he | he | he | he <;> subst he
          · exact stepEvent_roleIds 3 tenant.id
          · exact stepEvent_groupIds 3 tenant.id
          · exact stepEvent_promptStep 3
          · exact stepEvent_create (monitoring_email email_domain) false
          · exact stepEvent_roleIds 3 tenant.id
          · exact stepEvent_groupIds 3 tenant.id
          · exact stepEvent_promptStep 3
          · exact stepEvent_create (monitoring_email email_domain) true

theorem step3_mono (w : World) (op : Nat → Bool) (key env_name : String)
    (tenant : TenantRecord) (email_domain monitor_pw now : String) (s : StateDict)
    (n : Nat) (h : StateManager.is_step_done s key env_name n = true) :
    StateManager.is_step_done
      (step3 w op key env_name tenant email_domain monitor_pw now s).st
      key env_name n = true := by
  simp only [step3]
  split
  · exact h
  · split
    · exact h
    · split
      · exact h
      · split
        · exact h
        · split <;>
            simp [StateManager.is_step_done_save_monitoring_user,
              StateManager.is_step_done_mark, h]

theorem step3_other (w : World) (op : Nat → Bool) (key env_name : String)
    (tenant : TenantRecord) (email_domain monitor_pw now : String) (s : StateDict)
    (n : Nat) (hn : n ≠ 3) :
    StateManager.is_step_done
      (step3 w op key env_name tenant email_domain monitor_pw now s).st
      key env_name n = StateManager.is_step_done s key env_name n := by
  simp only [step3]
  have h3n : (3 : Nat) ≠ n := Ne.symm hn
  split
  · rfl
  · split
    · rfl
    · split
      · rfl
      · split
        · rfl
        · split <;>
            simp [StateManager.is_step_done_save_monitoring_user,
              StateManager.is_step_done_mark, h3n]

theorem step3_done (w : World) (op : Nat → Bool) (key env_name : String)
    (tenant : TenantRecord) (email_domain monitor_pw now : String) (s : StateDict)
    (h : StateManager.is_step_done s key env_name 3 = true) :
    step3 w op key env_name tenant email_domain monitor_pw now s =
      ⟨[.skipRender 3], s, .ok ()⟩ := by
  unfold step3
  rw [if_pos h]

theorem step3_fail (w : World) (op : Nat → Bool) (key env_name : String)
    (tenant : TenantRecord) (email_domain monitor_pw now : String) (s : StateDict)
    (h : ∃ e ∈ (step3 w op key env_name tenant email_domain monitor_pw now s).tr,
      Event.isStepCallFor 3 e = true ∧ Event.actionOk e = false) :
    (∃ m, (step3 w op key env_name tenant email_domain monitor_pw now s).val =
      .error (.failure m)) ∧
      (step3 w op key env_name tenant email_domain monitor_pw now s).st = s := by
  unfold step3 at h ⊢
  dsimp only [] at h ⊢
  by_cases h3 : StateManager.is_step_done s key env_name 3 = true
  · rw [if_pos h3] at h
    simp [Event.isStepCallFor] at h
  · rw [if_neg h3] at h ⊢
    cases hr : w.get_tenant_role_ids tenant.id with
    | error m =>
        rw [hr] at h
        simp [Event.isStepCallFor] at h
    | ok role_ids =>
      rw [hr] at h
      dsimp only [] at h ⊢
      cases hg : w.get_tenant_group_ids tenant.id with
      | error m =>
          rw [hg] at h
          simp [Event.isStepCallFor] at h
      | ok group_ids =>
        rw [hg] at h
        dsimp only [] at h ⊢
        by_cases hop : (!op 3) = true
        · rw [if_pos hop] at h
          simp [Event.isStepCallFor] at h
        · rw [if_neg hop] at h ⊢
          cases hc : w.create_monitoring_user (monitoring_email email_domain) tenant
              (w.bcrypt_hash monitor_pw) role_ids group_ids with
          | error m => exact ⟨⟨m, rfl⟩, rfl⟩
          | ok b =>
              rw [hc] at h
              simp [Event.isStepCallFor, Event.actionOk] at h

theorem step3_mark (w : World) (op : Nat → Bool) (key env_name : String)
    (tenant : TenantRecord) (email_domain monitor_pw now : String) (s : StateDict)
    (h : StateManager.is_step_done
      (step3 w op key env_name tenant email_domain monitor_pw now s).st
      key env_name 3 = true) :
    StateManager.is_step_done s key env_name 3 = true ∨
      ∃ e ∈ (step3 w op key env_name tenant email_domain monitor_pw now s).tr,
        Event.isStepCallFor 3 e = true ∧ Event.actionOk e = true := by
  unfold step3 at h ⊢
  dsimp only [] at h ⊢
  by_cases h3 : StateManager.is_step_done s key env_name 3 = true
  · exact Or.inl h3
  · rw [if_neg h3] at h ⊢
    cases hr : w.get_tenant_role_ids tenant.id with
    | error m =>
        rw [hr] at h
        exact Or.inl h
    | ok role_ids =>
      rw [hr] at h
      dsimp only [] at h ⊢
      cases hg : w.get_tenant_group_ids tenant.id with
      | error m =>
          rw [hg] at h
          exact Or.inl h
      | ok group_ids =>
        rw [hg] at h
        dsimp only [] at h ⊢
        by_cases hop : (!op 3) = true
        · rw [if_pos hop] at h
          exact Or.inl h
        · rw [if_neg hop] at h ⊢
          cases hc : w.create_monitoring_user (monitoring_email email_domain) tenant
              (w.bcrypt_hash monitor_pw) role_ids group_ids with
          | error m =>
              rw [hc] at h
              exact Or.inl h
          | ok b =>
              exact Or.inr ⟨.pgCreateMonitoringUser (monitoring_email email_domain) true,
                by simp [Event.isStepCallFor, Event.actionOk]⟩

theorem step3_tcompleted (w : World) (op : Nat → Bool) (key env_name : String)
    (tenant : TenantRecord) (email_domain monitor_pw now : String) (s : StateDict)
    (k : String) :
    (StateManager.ticketAt
      (step3 w op key env_name tenant email_domain monitor_pw now s).st k).completed =
      (StateManager.ticketAt s k).completed := by
  simp only [step3]
  split
  · rfl
  · split
    · rfl
    · split
      · rfl
      · split
        · rfl
        · split <;>
            simp [StateManager.tcompleted_save_monitoring_user,
              StateManager.tcompleted_mark_step_done]

theorem step5_tcompleted (w : World) (op : Nat → Bool) (key env_name : String)
    (tenant : TenantRecord) (now : String) (s : StateDict) (k : String) :
    (StateManager.ticketAt (step5 w op key env_name tenant now s).st k).completed =
      (StateManager.ticketAt s k).completed := by
  unfold step5
  split
  · rfl
  · split
    · rfl
    · split <;> simp [StateManager.tcompleted_mark_step_done]

/-! ### Suffixes of the environment sequence -/

theorem envSteps5_events (w : World) (op : Nat → Bool) (key env_name : String)
    (tenant : TenantRecord) (now : String) (s : StateDict) :
    ∀ e ∈ (envSteps5 w op key env_name tenant now s).tr,
      ∃ J, 5 ≤ J ∧ J ≤ 5 ∧ stepEvent J e := by
  intro e he
  unfold envSteps5 at he
  rcases h5 : step5 w op key env_name tenant now s with ⟨tr5, s5, v5⟩
  try rw [h5] at he
  cases v5 with
  | error a =>
      dsimp only [] at he
      exact ⟨5, le_refl 5, le_refl 5,
        step5_events w op key env_name tenant now s e (by rw [h5]; exact he)⟩
  | ok u =>
      dsimp only [] at he
      exact ⟨5, le_refl 5, le_refl 5,
        step5_events w op key env_name tenant now s e (by rw [h5]; exact he)⟩

theorem envSteps5_mono (w : World) (op : Nat → Bool) (key env_name : String)
    (tenant : TenantRecord) (now : String) (s : StateDict) (n : Nat)
    (h : StateManager.is_step_done s key env_name n = true) :
    StateManager.is_step_done (envSteps5 w op key env_name tenant now s).st
      key env_name n = true := by
  unfold envSteps5
  rcases h5 : step5 w op key env_name tenant now s with ⟨tr5, s5, v5⟩
  have hm : StateManager.is_step_done s5 key env_name n = true := by
    have := step5_mono w op key env_name tenant now s n h
    rwa [h5] at this
  cases v5 with
  | error a => exact hm
  | ok u => simpa [StateManager.is_step_done_mark_env_completed] using hm

theorem envSteps5_tcompleted (w : World) (op : Nat → Bool) (key env_name : String)
    (tenant : TenantRecord) (now : String) (s : StateDict) (k : String) :
    (StateManager.ticketAt (envSteps5 w op key env_name tenant now s).st k).completed =
      (StateManager.ticketAt s k).completed := by
  unfold envSteps5
  rcases h5 : step5 w op key env_name tenant now s with ⟨tr5, s5, v5⟩
  have hm : (StateManager.ticketAt s5 k).completed =
      (StateManager.ticketAt s k).completed := by
    have := step5_tcompleted w op key env_name tenant now s k
    rwa [h5] at this
  cases v5 with
  | error a => exact hm
  | ok u => simpa [StateManager.tcompleted_mark_env_completed] using hm

theorem envSteps5_c1 (w : World) (op : Nat → Bool) (key env_name : String)
    (tenant : TenantRecord) (now : String) (s : StateDict) (k : Nat)
    (hk : k ∈ ([1, 2, 3, 4, 5] : List Nat))
    (h : StateManager.is_step_done s key env_name k = true) :
    (∀ e ∈ (envSteps5 w op key env_name tenant now s).tr,
      Event.isPromptFor k e = false ∧ Event.isActionFor k e = false) ∧
    ((envSteps5 w op key env_name tenant now s).val = .ok () → 5 ≤ k →
      Event.skipRender k ∈ (envSteps5 w op key env_name tenant now s).tr) := by
  by_cases hk5 : k = 5
  · subst hk5
    unfold envSteps5
    rw [step5_done w op key env_name tenant now s h]
    dsimp only []
    refine ⟨?_, ?_⟩
    · intro e he
      simp at he
      subst he
      simp [Event.isPromptFor, Event.isActionFor]
    · intro _ _
      simp
  · constructor
    · intro e he
      obtain ⟨J, hJ1, hJ2, hse⟩ := envSteps5_events w op key env_name tenant now s e he
      have hJ : J = 5 := by omega
      subst hJ
      exact stepEvent_ne hk5 hse
    · intro _ hle
      exfalso
      simp at hk
      omega

theorem envSteps5_c5fail (w : World) (op : Nat → Bool) (key env_name : String)
    (tenant : TenantRecord) (now : String) (s : StateDict) (k : Nat)
    (h : ∃ e ∈ (envSteps5 w op key env_name tenant now s).tr,
      Event.isStepCallFor k e = true ∧ Event.actionOk e = false) :
    (∃ m, (envSteps5 w op key env_name tenant now s).val = .error (.failure m)) ∧
      StateManager.is_step_done (envSteps5 w op key env_name tenant now s).st
          key env_name k =
        StateManager.is_step_done s key env_name k := by
  obtain ⟨e, he, hcall, hok⟩ := h
  have hk5 : k = 5 := by
    have hev := (envSteps5_events w op key env_name tenant now s e he)
    obtain ⟨J, hJ1, hJ2, hse⟩ := hev
    have := hse.2.2.1 k hcall
    omega
  subst hk5
  unfold envSteps5 at he ⊢
  rcases h5 : step5 w op key env_name tenant now s with ⟨tr5, s5, v5⟩
  try rw [h5] at he
  cases v5 with
  | error a =>
      dsimp only [] at he
      have := step5_fail w op key env_name tenant now s
        ⟨e, (by rw [h5]; exact he), hcall, hok⟩
      rw [h5] at this
      obtain ⟨⟨m, hm⟩, hst⟩ := this
      exact ⟨⟨m, hm⟩, by rw [hst]⟩
  | ok u =>
      dsimp only [] at he
      have := step5_fail w op key env_name tenant now s
        ⟨e, (by rw [h5]; exact he), hcall, hok⟩
      rw [h5] at this
      obtain ⟨⟨m, hm⟩, hst⟩ := this
      exact absurd hm (by simp)

theorem envSteps5_mark (w : World) (op : Nat → Bool) (key env_name : String)
    (tenant : TenantRecord) (now : String) (s : StateDict) (k : Nat)
    (h : StateManager.is_step_done (envSteps5 w op key env_name tenant now s).st
      key env_name k = true) :
    StateManager.is_step_done s key env_name k = true ∨
      ∃ e ∈ (envSteps5 w op key env_name tenant now s).tr,
        Event.isStepCallFor k e = true ∧ Event.actionOk e = true := by
  unfold envSteps5 at h ⊢
  rcases h5 : step5 w op key env_name tenant now s with ⟨tr5, s5, v5⟩
  try rw [h5] at h
  by_cases hk5 : k = 5
  · subst hk5
    cases v5 with
    | error a =>
        have h' : StateManager.is_step_done s5 key env_name 5 = true := h
        have := step5_mark w op key env_name tenant now s (by rw [h5]; exact h')
        rcases this with hl | ⟨e, he, hz⟩
        · exact Or.inl hl
        · exact Or.inr ⟨e, (by rw [h5] at he; exact he), hz⟩
    | ok u =>
        have h' : StateManager.is_step_done s5 key env_name 5 = true := by
          have := h
          rwa [StateManager.is_step_done_mark_env_completed] at this
        have := step5_mark w op key env_name tenant now s (by rw [h5]; exact h')
        rcases this with hl | ⟨e, he, hz⟩
        · exact Or.inl hl
        · exact Or.inr ⟨e, (by rw [h5] at he; exact he), hz⟩
  · have hother := step5_other w op key env_name tenant now s k hk5
    rw [h5] at hother
    cases v5 with
    | error a =>
        have h' : StateManager.is_step_done s5 key env_name k = true := h
        rw [hother] at h'
        exact Or.inl h'
    | ok u =>
        have h' : StateManager.is_step_done s5 key env_name k = true := by
          have := h
          rwa [StateManager.is_step_done_mark_env_completed] at this
        rw [hother] at h'
        exact Or.inl h'

theorem envSteps4_events (w : World) (op : Nat → Bool) (key env_name : String)
    (tenant : TenantRecord) (email_domain now : String) (s : StateDict) :
    ∀ e ∈ (envSteps4 w op key env_name tenant email_domain now s).tr,
      ∃ J, 4 ≤ J ∧ J ≤ 5 ∧ stepEvent J e := by
  intro e he
  unfold envSteps4 at he
  rcases h4 : step4 w op key env_name email_domain now s with ⟨tr4, s4, v4⟩
  try rw [h4] at he
  cases v4 with
  | error a =>
      dsimp only [] at he
      exact ⟨4, by omega, by omega,
        step4_events w op key env_name email_domain now s e (by rw [h4]; exact he)⟩
  | ok u =>
      dsimp only [] at he
      rw [List.mem_append] at he
      rcases he with he | he
      · exact ⟨4, by omega, by omega,
          step4_events w op key env_name email_domain now s e (by rw [h4]; exact he)⟩
      · obtain ⟨J, h1, h2, hse⟩ := envSteps5_events w op key env_name tenant now s4 e he
        exact ⟨J, by omega, h2, hse⟩

theorem envSteps4_mono (w : World) (op : Nat → Bool) (key env_name : String)
    (tenant : TenantRecord) (email_domain now : String) (s : StateDict) (n : Nat)
    (h : StateManager.is_step_done s key env_name n = true) :
    StateManager.is_step_done (envSteps4 w op key env_name tenant email_domain now s).st
      key env_name n = true := by
  unfold envSteps4
  rcases h4 : step4 w op key env_name email_domain now s with ⟨tr4, s4, v4⟩
  have hm : StateManager.is_step_done s4 key env_name n = true := by
    have := step4_mono w op key env_name email_domain now s n h
    rwa [h4] at this
  cases v4 with
  | error a => exact hm
  | ok u => exact envSteps5_mono w op key env_name tenant now s4 n hm

theorem envSteps4_tcompleted (w : World) (op : Nat → Bool) (key env_name : String)
    (tenant : TenantRecord) (email_domain now : String) (s : StateDict) (k : String) :
    (StateManager.ticketAt
      (envSteps4 w op key env_name tenant email_domain now s).st k).completed =
      (StateManager.ticketAt s k).completed := by
  unfold envSteps4
  rcases h4 : step4 w op key env_name email_domain now s with ⟨tr4, s4, v4⟩
  have hm : (StateManager.ticketAt s4 k).completed =
      (StateManager.ticketAt s k).completed := by
    have := step4_tcompleted w op key env_name email_domain now s k
    rwa [h4] at this
  cases v4 with
  | error a => exact hm
  | ok u =>
      rw [envSteps5_tcompleted w op key env_name tenant now s4 k]
      exact hm

theorem envSteps4_c1 (w : World) (op : Nat → Bool) (key env_name : String)
    (tenant : TenantRecord) (email_domain now : String) (s : StateDict) (k : Nat)
    (hk : k ∈ ([1, 2, 3, 4, 5] : List Nat))
    (h : StateManager.is_step_done s key env_name k = true) :
    (∀ e ∈ (envSteps4 w op key env_name tenant email_domain now s).tr,
      Event.isPromptFor k e = false ∧ Event.isActionFor k e = false) ∧
    ((envSteps4 w op key env_name tenant email_domain now s).val = .ok () → 4 ≤ k →
      Event.skipRender k ∈ (envSteps4 w op key env_name tenant email_domain now s).tr) := by
  by_cases hk4 : k = 4
  · subst hk4
    unfold envSteps4
    rw [step4_done w op key env_name email_domain now s h]
    dsimp only []
    obtain ⟨hc1, _⟩ := envSteps5_c1 w op key env_name tenant now s 4 (by simp) h
    refine ⟨?_, ?_⟩
    · intro e he
      simp only [List.cons_append, List.nil_append, List.mem_cons] at he
      rcases he with he | he
      · subst he
        simp [Event.isPromptFor, Event.isActionFor]
      · exact hc1 e he
    · intro _ _
      simp
  · unfold envSteps4
    rcases h4 : step4 w op key env_name email_domain now s with ⟨tr4, s4, v4⟩
    have hm : StateManager.is_step_done s4 key env_name k = true := by
      have := step4_mono w op key env_name email_domain now s k h
      rwa [h4] at this
    cases v4 with
    | error a =>
        dsimp only []
        refine ⟨?_, ?_⟩
        · intro e he
          exact stepEvent_ne hk4
            (step4_events w op key env_name email_domain now s e (by rw [h4]; exact he))
        · intro hv
          exact absurd hv (by simp)
    | ok u =>
        dsimp only []
        obtain ⟨hc1, hc2⟩ := envSteps5_c1 w op key env_name tenant now s4 k hk hm
        refine ⟨?_, ?_⟩
        · intro e he
          rw [List.mem_append] at he
          rcases he with he | he
          · exact stepEvent_ne hk4
              (step4_events w op key env_name email_domain now s e (by rw [h4]; exact he))
          · exact hc1 e he
        · intro hv hle
          have hk5 : 5 ≤ k := by
            simp at hk
            omega
          exact List.mem_append.mpr (Or.inr (hc2 hv hk5))

theorem envSteps4_c5fail (w : World) (op : Nat → Bool) (key env_name : String)
    (tenant : TenantRecord) (email_domain now : String) (s : StateDict) (k : Nat)
    (h : ∃ e ∈ (envSteps4 w op key env_name tenant email_domain now s).tr,
      Event.isStepCallFor k e = true ∧ Event.actionOk e = false) :
    (∃ m, (envSteps4 w op key env_name tenant email_domain now s).val =
      .error (.failure m)) ∧
      StateManager.is_step_done
          (envSteps4 w op key env_name tenant email_domain now s).st key env_name k =
        StateManager.is_step_done s key env_name k := by
  unfold envSteps4 at h ⊢
  rcases h4 : step4 w op key env_name email_domain now s with ⟨tr4, s4, v4⟩
  try rw [h4] at h
  cases v4 with
  | error a =>
      dsimp only [] at h ⊢
      obtain ⟨e, he, hcall, hok⟩ := h
      have hk4 : k = 4 :=
        (step4_events w op key env_name email_domain now s e
          (by rw [h4]; exact he)).2.2.1 k hcall
      subst hk4
      have := step4_fail w op key env_name email_domain now s
        ⟨e, (by rw [h4]; exact he), hcall, hok⟩
      rw [h4] at this
      obtain ⟨⟨m, hm⟩, hst⟩ := this
      have hst2 : s4 = s := hst
      exact ⟨⟨m, hm⟩, by rw [hst2]⟩
  | ok u =>
      dsimp only [] at h ⊢
      obtain ⟨e, he, hcall, hok⟩ := h
      rw [List.mem_append] at he
      rcases he with he | he
      · have hk4 : k = 4 :=
          (step4_events w op key env_name email_domain now s e
            (by rw [h4]; exact he)).2.2.1 k hcall
        subst hk4
        have := step4_fail w op key env_name email_domain now s
          ⟨e, (by rw [h4]; exact he), hcall, hok⟩
        rw [h4] at this
        obtain ⟨⟨m, hm⟩, _⟩ := this
        exact absurd hm (by simp)
      · have hk4 : k ≠ 4 := by
          obtain ⟨J, hJ1, _, hse⟩ := envSteps5_events w op key env_name tenant now s4 e he
          have := hse.2.2.1 k hcall
          omega
        obtain ⟨⟨m, hm⟩, heq⟩ :=
          envSteps5_c5fail w op key env_name tenant now s4 k ⟨e, he, hcall, hok⟩
        have hother := step4_other w op key env_name email_domain now s k hk4
        rw [h4] at hother
        exact ⟨⟨m, hm⟩, by rw [heq, hother]⟩

theorem envSteps4_mark (w : World) (op : Nat → Bool) (key env_name : String)
    (tenant : TenantRecord) (email_domain now : String) (s : StateDict) (k : Nat)
    (h : StateManager.is_step_done
      (envSteps4 w op key env_name tenant email_domain now s).st key env_name k = true) :
    StateManager.is_step_done s key env_name k = true ∨
      ∃ e ∈ (envSteps4 w op key env_name tenant email_domain now s).tr,
        Event.isStepCallFor k e = true ∧ Event.actionOk e = true := by
  unfold envSteps4 at h ⊢
  rcases h4 : step4 w op key env_name email_domain now s with ⟨tr4, s4, v4⟩
  try rw [h4] at h
  have hstep : StateManager.is_step_done s4 key env_name k = true →
      StateManager.is_step_done s key env_name k = true ∨
        ∃ e ∈ tr4, Event.isStepCallFor k e = true ∧ Event.actionOk e = true := by
    intro hh
    by_cases hk4 : k = 4
    · subst hk4
      have := step4_mark w op key env_name email_domain now s (by rw [h4]; exact hh)
      rcases this with hl | ⟨e, he, hz⟩
      · exact Or.inl hl
      · exact Or.inr ⟨e, (by rw [h4] at he; exact he), hz⟩
    · have hother := step4_other w op key env_name email_domain now s k hk4
      rw [h4] at hother
      rw [hother] at hh
      exact Or.inl hh
  cases v4 with
  | error a =>
      dsimp only [] at h ⊢
      exact hstep h
  | ok u =>
      dsimp only [] at h ⊢
      rcases envSteps5_mark w op key env_name tenant now s4 k h with hl | ⟨e, he, hz⟩
      · rcases hstep hl with hL | ⟨e, he, hz⟩
        · exact Or.inl hL
        · exact Or.inr ⟨e, List.mem_append.mpr (Or.inl he), hz⟩
      · exact Or.inr ⟨e, List.mem_append.mpr (Or.inr he), hz⟩

theorem envSteps3_events (w : World) (op : Nat → Bool) (key env_name : String)
    (tenant : TenantRecord) (email_domain monitor_pw now : String) (s : StateDict) :
    ∀ e ∈ (envSteps3 w op key env_name tenant email_domain monitor_pw now s).tr,
      ∃ J, 3 ≤ J ∧ J ≤ 5 ∧ stepEvent J e := by
  intro e he
  unfold envSteps3 at he
  rcases h3 : step3 w op key env_name tenant email_domain monitor_pw now s
    with ⟨tr3, s3, v3⟩
  try rw [h3] at he
  cases v3 with
  | error a =>
      dsimp only [] at he
      exact ⟨3, by omega, by omega,
        step3_events w op key env_name tenant email_domain monitor_pw now s e
          (by rw [h3]; exact he)⟩
  | ok u =>
      dsimp only [] at he
      rw [List.mem_append] at he
      rcases he with he | he
      · exact ⟨3, by omega, by omega,
          step3_events w op key env_name tenant email_domain monitor_pw now s e
            (by rw [h3]; exact he)⟩
      · obtain ⟨J, h1, h2, hse⟩ :=
          envSteps4_events w op key env_name tenant email_domain now s3 e he
        exact ⟨J, by omega, h2, hse⟩

theorem envSteps3_mono (w : World) (op : Nat → Bool) (key env_name : String)
    (tenant : TenantRecord) (email_domain monitor_pw now : String) (s : StateDict)
    (n : Nat) (h : StateManager.is_step_done s key env_name n = true) :
    StateManager.is_step_done
      (envSteps3 w op key env_name tenant email_domain monitor_pw now s).st
      key env_name n = true := by
  unfold envSteps3
  rcases h3 : step3 w op key env_name tenant email_domain monitor_pw now s
    with ⟨tr3, s3, v3⟩
  have hm : StateManager.is_step_done s3 key env_name n = true := by
    have := step3_mono w op key env_name tenant email_domain monitor_pw now s n h
    rwa [h3] at this
  cases v3 with
  | error a => exact hm
  | ok u => exact envSteps4_mono w op key env_name tenant email_domain now s3 n hm

theorem envSteps3_tcompleted (w : World) (op : Nat → Bool) (key env_name : String)
    (tenant : TenantRecord) (email_domain monitor_pw now : String) (s : StateDict)
    (k : String) :
    (StateManager.ticketAt
      (envSteps3 w op key env_name tenant email_domain monitor_pw now s).st k).completed =
      (StateManager.ticketAt s k).completed := by
  unfold envSteps3
  rcases h3 : step3 w op key env_name tenant email_domain monitor_pw now s
    with ⟨tr3, s3, v3⟩
  have hm : (StateManager.ticketAt s3 k).completed =
      (StateManager.ticketAt s k).completed := by
    have := step3_tcompleted w op key env_name tenant email_domain monitor_pw now s k
    rwa [h3] at this
  cases v3 with
  | error a => exact hm
  | ok u =>
      rw [envSteps4_tcompleted w op key env_name tenant email_domain now s3 k]
      exact hm

theorem envSteps3_c1 (w : World) (op : Nat → Bool) (key env_name : String)
    (tenant : TenantRecord) (email_domain monitor_pw now : String) (s : StateDict)
    (k : Nat) (hk : k ∈ ([1, 2, 3, 4, 5] : List Nat))
    (h : StateManager.is_step_done s key env_name k = true) :
    (∀ e ∈ (envSteps3 w op key env_name tenant email_domain monitor_pw now s).tr,
      Event.isPromptFor k e = false ∧ Event.isActionFor k e = false) ∧
    ((envSteps3 w op key env_name tenant email_domain monitor_pw now s).val = .ok () →
      3 ≤ k →
      Event.skipRender k ∈
        (envSteps3 w op key env_name tenant email_domain monitor_pw now s).tr) := by
  by_cases hk3 : k = 3
  · subst hk3
    unfold envSteps3
    rw [step3_done w op key env_name tenant email_domain monitor_pw now s h]
    dsimp only []
    obtain ⟨hc1, _⟩ := envSteps4_c1 w op key env_name tenant email_domain now s 3
      (by simp) h
    refine ⟨?_, ?_⟩
    · intro e he
      simp only [List.cons_append, List.nil_append, List.mem_cons] at he
      rcases he with he | he
      · subst he
        simp [Event.isPromptFor, Event.isActionFor]
      · exact hc1 e he
    · intro _ _
      simp
  · unfold envSteps3
    rcases h3 : step3 w op key env_name tenant email_domain monitor_pw now s
      with ⟨tr3, s3, v3⟩
    have hm : StateManager.is_step_done s3 key env_name k = true := by
      have := step3_mono w op key env_name tenant email_domain monitor_pw now s k h
      rwa [h3] at this
    cases v3 with
    | error a =>
        dsimp only []
        refine ⟨?_, ?_⟩
        · intro e he
          exact stepEvent_ne hk3
            (step3_events w op key env_name tenant email_domain monitor_pw now s e
              (by rw [h3]; exact he))
        · intro hv
          exact absurd hv (by simp)
    | ok u =>
        dsimp only []
        obtain ⟨hc1, hc2⟩ := envSteps4_c1 w op key env_name tenant email_domain now s3 k hk hm
        refine ⟨?_, ?_⟩
        · intro e he
          rw [List.mem_append] at he
          rcases he with he | he
          · exact stepEvent_ne hk3
              (step3_events w op key env_name tenant email_domain monitor_pw now s e
                (by rw [h3]; exact he))
          · exact hc1 e he
        · intro hv hle
          have hk4 : 4 ≤ k := by
            simp at hk
            omega
          exact List.mem_append.mpr (Or.inr (hc2 hv hk4))

theorem envSteps3_c5fail (w : World) (op : Nat → Bool) (key env_name : String)
    (tenant : TenantRecord) (email_domain monitor_pw now : String) (s : StateDict)
    (k : Nat)
    (h : ∃ e ∈ (envSteps3 w op key env_name tenant email_domain monitor_pw now s).tr,
      Event.isStepCallFor k e = true ∧ Event.actionOk e = false) :
    (∃ m, (envSteps3 w op key env_name tenant email_domain monitor_pw now s).val =
      .error (.failure m)) ∧
      StateManager.is_step_done
          (envSteps3 w op key env_name tenant email_domain monitor_pw now s).st
          key env_name k =
        StateManager.is_step_done s key env_name k := by
  unfold envSteps3 at h ⊢
  rcases h3 : step3 w op key env_name tenant email_domain monitor_pw now s
    with ⟨tr3, s3, v3⟩
  try rw [h3] at h
  cases v3 with
  | error a =>
      dsimp only [] at h ⊢
      obtain ⟨e, he, hcall, hok⟩ := h
      have hk3 : k = 3 :=
        (step3_events w op key env_name tenant email_domain monitor_pw now s e
          (by rw [h3]; exact he)).2.2.1 k hcall
      subst hk3
      have := step3_fail w op key env_name tenant email_domain monitor_pw now s
        ⟨e, (by rw [h3]; exact he), hcall, hok⟩
      rw [h3] at this
      obtain ⟨⟨m, hm⟩, hst⟩ := this
      have hst2 : s3 = s := hst
      exact ⟨⟨m, hm⟩, by rw [hst2]⟩
  | ok u =>
      dsimp only [] at h ⊢
      obtain ⟨e, he, hcall, hok⟩ := h
      rw [List.mem_append] at he
      rcases he with he | he
      · have hk3 : k = 3 :=
          (step3_events w op key env_name tenant email_domain monitor_pw now s e
            (by rw [h3]; exact he)).2.2.1 k hcall
        subst hk3
        have := step3_fail w op key env_name tenant email_domain monitor_pw now s
          ⟨e, (by rw [h3]; exact he), hcall, hok⟩
        rw [h3] at this
        obtain ⟨⟨m, hm⟩, _⟩ := this
        exact absurd hm (by simp)
      · have hk3 : k ≠ 3 := by
          obtain ⟨J, hJ1, _, hse⟩ :=
            envSteps4_events w op key env_name tenant email_domain now s3 e he
          have := hse.2.2.1 k hcall
          omega
        obtain ⟨⟨m, hm⟩, heq⟩ :=
          envSteps4_c5fail w op key env_name tenant email_domain now s3 k
            ⟨e, he, hcall, hok⟩
        have hother := step3_other w op key env_name tenant email_domain monitor_pw now
          s k hk3
        rw [h3] at hother
        exact ⟨⟨m, hm⟩, by rw [heq, hother]⟩

theorem envSteps3_mark (w : World) (op : Nat → Bool) (key env_name : String)
    (tenant : TenantRecord) (email_domain monitor_pw now : String) (s : StateDict)
    (k : Nat)
    (h : StateManager.is_step_done
      (envSteps3 w op key env_name tenant email_domain monitor_pw now s).st
      key env_name k = true) :
    StateManager.is_step_done s key env_name k = true ∨
      ∃ e ∈ (envSteps3 w op key env_name tenant email_domain monitor_pw now s).tr,
        Event.isStepCallFor k e = true ∧ Event.actionOk e = true := by
  unfold envSteps3 at h ⊢
  rcases h3 : step3 w op key env_name tenant email_domain monitor_pw now s
    with ⟨tr3, s3, v3⟩
  try rw [h3] at h
  have hstep : StateManager.is_step_done s3 key env_name k = true →
      StateManager.is_step_done s key env_name k = true ∨
        ∃ e ∈ tr3, Event.isStepCallFor k e = true ∧ Event.actionOk e = true := by
    intro hh
    by_cases hk3 : k = 3
    · subst hk3
      have := step3_mark w op key env_name tenant email_domain monitor_pw now s
        (by rw [h3]; exact hh)
      rcases this with hl | ⟨e, he, hz⟩
      · exact Or.inl hl
      · exact Or.inr ⟨e, (by rw [h3] at he; exact he), hz⟩
    · have hother := step3_other w op key env_name tenant email_domain monitor_pw now
        s k hk3
      rw [h3] at hother
      rw [hother] at hh
      exact Or.inl hh
  cases v3 with
  | error a =>
      dsimp only [] at h ⊢
      exact hstep h
  | ok u =>
      dsimp only [] at h ⊢
      rcases envSteps4_mark w op key env_name tenant email_domain now s3 k h
        with hl | ⟨e, he, hz⟩
      · rcases hstep hl with hL | ⟨e, he, hz⟩
        · exact Or.inl hL
        · exact Or.inr ⟨e, List.mem_append.mpr (Or.inl he), hz⟩
      · exact Or.inr ⟨e, List.mem_append.mpr (Or.inr he), hz⟩

theorem envSteps2_events (w : World) (op : Nat → Bool) (key env_name : String)
    (email_domain monitor_pw now : String) (s : StateDict) :
    ∀ e ∈ (envSteps2 w op key env_name email_domain monitor_pw now s).tr,
      ∃ J, 2 ≤ J ∧ J ≤ 5 ∧ stepEvent J e := by
  intro e he
  unfold envSteps2 at he
  rcases h2 : step2 w op key env_name email_domain now s with ⟨tr2, s2, v2⟩
  try rw [h2] at he
  cases v2 with
  | error a =>
      dsimp only [] at he
      exact ⟨2, by omega, by omega,
        step2_events w op key env_name email_domain now s e (by rw [h2]; exact he)⟩
  | ok tenant =>
      dsimp only [] at he
      rw [List.mem_append] at he
      rcases he with he | he
      · exact ⟨2, by omega, by omega,
          step2_events w op key env_name email_domain now s e (by rw [h2]; exact he)⟩
      · obtain ⟨J, h1, h2s, hse⟩ :=
          envSteps3_events w op key env_name tenant email_domain monitor_pw now s2 e he
        exact ⟨J, by omega, h2s, hse⟩

theorem envSteps2_mono (w : World) (op : Nat → Bool) (key env_name : String)
    (email_domain monitor_pw now : String) (s : StateDict) (n : Nat)
    (h : StateManager.is_step_done s key env_name n = true) :
    StateManager.is_step_done
      (envSteps2 w op key env_name email_domain monitor_pw now s).st
      key env_name n = true := by
  unfold envSteps2
  rcases h2 : step2 w op key env_name email_domain now s with ⟨tr2, s2, v2⟩
  have hm : StateManager.is_step_done s2 key env_name n = true := by
    have := step2_mono w op key env_name email_domain now s n h
    rwa [h2] at this
  cases v2 with
  | error a => exact hm
  | ok tenant =>
      exact envSteps3_mono w op key env_name tenant email_domain monitor_pw now s2 n hm

theorem envSteps2_tcompleted (w : World) (op : Nat → Bool) (key env_name : String)
    (email_domain monitor_pw now : String) (s : StateDict) (k : String) :
    (StateManager.ticketAt
      (envSteps2 w op key env_name email_domain monitor_pw now s).st k).completed =
      (StateManager.ticketAt s k).completed := by
  unfold envSteps2
  rcases h2 : step2 w op key env_name email_domain now s with ⟨tr2, s2, v2⟩
  have hm : (StateManager.ticketAt s2 k).completed =
      (StateManager.ticketAt s k).completed := by
    have := step2_tcompleted w op key env_name email_domain now s k
    rwa [h2] at this
  cases v2 with
  | error a => exact hm
  | ok tenant =>
      rw [envSteps3_tcompleted w op key env_name tenant email_domain monitor_pw now s2 k]
      exact hm

theorem envSteps2_started (w : World) (op : Nat → Bool) (key env_name : String)
    (email_domain monitor_pw now : String) (s : StateDict) :
    ∃ e ∈ (envSteps2 w op key env_name email_domain monitor_pw now s).tr,
      e = .skipRender 2 ∨ e = .promptStep 2 ∨ ∃ b, e = .pgGetTenant email_domain b := by
  unfold envSteps2
  rcases h2 : step2 w op key env_name email_domain now s with ⟨tr2, s2, v2⟩
  obtain ⟨e, he, hshape⟩ := step2_started w op key env_name email_domain now s
  rw [h2] at he
  cases v2 with
  | error a => exact ⟨e, he, hshape⟩
  | ok tenant => exact ⟨e, List.mem_append.mpr (Or.inl he), hshape⟩

theorem envSteps2_c1 (w : World) (op : Nat → Bool) (key env_name : String)
    (email_domain monitor_pw now : String) (s : StateDict) (k : Nat)
    (hk : k ∈ ([1, 2, 3, 4, 5] : List Nat))
    (h : StateManager.is_step_done s key env_name k = true) :
    (∀ e ∈ (envSteps2 w op key env_name email_domain monitor_pw now s).tr,
      Event.isPromptFor k e = false ∧ Event.isActionFor k e = false) ∧
    ((envSteps2 w op key env_name email_domain monitor_pw now s).val = .ok () →
      2 ≤ k →
      Event.skipRender k ∈
        (envSteps2 w op key env_name email_domain monitor_pw now s).tr) := by
  unfold envSteps2
  rcases h2 : step2 w op key env_name email_domain now s with ⟨tr2, s2, v2⟩
  by_cases hk2 : k = 2
  · subst hk2
    have hd := step2_done w op key env_name email_domain now s h
    rw [h2] at hd
    dsimp only [] at hd
    obtain ⟨hst, htr, hskip⟩ := hd
    cases v2 with
    | error a =>
        dsimp only []
        refine ⟨htr, ?_⟩
        intro hv
        exact absurd hv (by simp)
    | ok tenant =>
        dsimp only []
        have hs2 : StateManager.is_step_done s2 key env_name 2 = true := by
          rw [hst]
          exact h
        obtain ⟨hc1, _⟩ :=
          envSteps3_c1 w op key env_name tenant email_domain monitor_pw now s2 2
            (by simp) hs2
        refine ⟨?_, ?_⟩
        · intro e he
          rw [List.mem_append] at he
          rcases he with he | he
          · exact htr e he
          · exact hc1 e he
        · intro _ _
          exact List.mem_append.mpr (Or.inl (hskip tenant rfl))
  · have hm : StateManager.is_step_done s2 key env_name k = true := by
      have := step2_mono w op key env_name email_domain now s k h
      rwa [h2] at this
    cases v2 with
    | error a =>
        dsimp only []
        refine ⟨?_, ?_⟩
        · intro e he
          exact stepEvent_ne hk2
            (step2_events w op key env_name email_domain now s e (by rw [h2]; exact he))
        · intro hv
          exact absurd hv (by simp)
    | ok tenant =>
        dsimp only []
        obtain ⟨hc1, hc2⟩ :=
          envSteps3_c1 w op key env_name tenant email_domain monitor_pw now s2 k hk hm
        refine ⟨?_, ?_⟩
        · intro e he
          rw [List.mem_append] at he
          rcases he with he | he
          · exact stepEvent_ne hk2
              (step2_events w op key env_name email_domain now s e (by rw [h2]; exact he))
          · exact hc1 e he
        · intro hv hle
          have hk3 : 3 ≤ k := by
            simp at hk
            omega
          exact List.mem_append.mpr (Or.inr (hc2 hv hk3))

theorem envSteps2_c5fail (w : World) (op : Nat → Bool) (key env_name : String)
    (email_domain monitor_pw now : String) (s : StateDict) (k : Nat)
    (h : ∃ e ∈ (envSteps2 w op key env_name email_domain monitor_pw now s).tr,
      Event.isStepCallFor k e = true ∧ Event.actionOk e = false) :
    (∃ m, (envSteps2 w op key env_name email_domain monitor_pw now s).val =
      .error (.failure m)) ∧
      StateManager.is_step_done
          (envSteps2 w op key env_name email_domain monitor_pw now s).st key env_name k =
        StateManager.is_step_done s key env_name k := by
  unfold envSteps2 at h ⊢
  rcases h2 : step2 w op key env_name email_domain now s with ⟨tr2, s2, v2⟩
  try rw [h2] at h
  cases v2 with
  | error a =>
      dsimp only [] at h ⊢
      obtain ⟨e, he, hcall, hok⟩ := h
      have hk2 : k = 2 :=
        (step2_events w op key env_name email_domain now s e
          (by rw [h2]; exact he)).2.2.1 k hcall
      subst hk2
      have := step2_fail w op key env_name email_domain now s
        ⟨e, (by rw [h2]; exact he), hcall, hok⟩
      rw [h2] at this
      dsimp only [] at this
      obtain ⟨⟨m, hm⟩, hst⟩ := this
      have hst2 : s2 = s := hst
      have ha : a = .failure m := by
        simpa using hm
      exact ⟨⟨m, by rw [ha]⟩, by rw [hst2]⟩
  | ok tenant =>
      dsimp only [] at h ⊢
      obtain ⟨e, he, hcall, hok⟩ := h
      rw [List.mem_append] at he
      rcases he with he | he
      · have hk2 : k = 2 :=
          (step2_events w op key env_name email_domain now s e
            (by rw [h2]; exact he)).2.2.1 k hcall
        subst hk2
        have := step2_fail w op key env_name email_domain now s
          ⟨e, (by rw [h2]; exact he), hcall, hok⟩
        rw [h2] at this
        obtain ⟨⟨m, hm⟩, _⟩ := this
        exact absurd hm (by simp)
      · have hk2 : k ≠ 2 := by
          obtain ⟨J, hJ1, _, hse⟩ :=
            envSteps3_events w op key env_name tenant email_domain monitor_pw now s2 e he
          have := hse.2.2.1 k hcall
          omega
        obtain ⟨⟨m, hm⟩, heq⟩ :=
          envSteps3_c5fail w op key env_name tenant email_domain monitor_pw now s2 k
            ⟨e, he, hcall, hok⟩
        have hother := step2_other w op key env_name email_domain now s k hk2
        rw [h2] at hother
        exact ⟨⟨m, hm⟩, by rw [heq, hother]⟩

theorem envSteps2_mark (w : World) (op : Nat → Bool) (key env_name : String)
    (email_domain monitor_pw now : String) (s : StateDict) (k : Nat)
    (h : StateManager.is_step_done
      (envSteps2 w op key env_name email_domain monitor_pw now s).st
      key env_name k = true) :
    StateManager.is_step_done s key env_name k = true ∨
      ∃ e ∈ (envSteps2 w op key env_name email_domain monitor_pw now s).tr,
        Event.isStepCallFor k e = true ∧ Event.actionOk e = true := by
  unfold envSteps2 at h ⊢
  rcases h2 : step2 w op key env_name email_domain now s with ⟨tr2, s2, v2⟩
  try rw [h2] at h
  have hstep : StateManager.is_step_done s2 key env_name k = true →
      StateManager.is_step_done s key env_name k = true ∨
        ∃ e ∈ tr2, Event.isStepCallFor k e = true ∧ Event.actionOk e = true := by
    intro hh
    by_cases hk2 : k = 2
    · subst hk2
      have := step2_mark w op key env_name email_domain now s (by rw [h2]; exact hh)
      rcases this with hl | ⟨e, he, hz⟩
      · exact Or.inl hl
      · exact Or.inr ⟨e, (by rw [h2] at he; exact he), hz⟩
    · have hother := step2_other w op key env_name email_domain now s k hk2
      rw [h2] at hother
      rw [hother] at hh
      exact Or.inl hh
  cases v2 with
  | error a =>
      dsimp only [] at h ⊢
      exact hstep h
  | ok tenant =>
      dsimp only [] at h ⊢
      rcases envSteps3_mark w op key env_name tenant email_domain monitor_pw now s2 k h
        with hl | ⟨e, he, hz⟩
      · rcases hstep hl with hL | ⟨e, he, hz⟩
        · exact Or.inl hL
        · exact Or.inr ⟨e, List.mem_append.mpr (Or.inl he), hz⟩
      · exact Or.inr ⟨e, List.mem_append.mpr (Or.inr he), hz⟩

/-! ### Lemmas about the step chain (envSteps1) -/

theorem envSteps1_events (w : World) (op : Nat → Bool) (ticket : OnboardTicket)
    (env_name email_domain monitor_pw now : String) (s0 : StateDict) :
    ∀ e ∈ (envSteps1 w op ticket env_name email_domain monitor_pw now s0).tr,
      ∃ J, 1 ≤ J ∧ J ≤ 5 ∧ stepEvent J e := by
  intro e he
  unfold envSteps1 at he
  rcases h1 : step1 w op ticket.users ticket.key env_name now s0 with ⟨tr1, s1, v1⟩
  try rw [h1] at he
  cases v1 with
  | error a =>
      dsimp only [] at he
      exact ⟨1, by omega, by omega,
        step1_events w op ticket.users ticket.key env_name now s0 e
          (by rw [h1]; exact he)⟩
  | ok u =>
      dsimp only [] at he
      rw [List.mem_append] at he
      rcases he with he | he
      · exact ⟨1, by omega, by omega,
          step1_events w op ticket.users ticket.key env_name now s0 e
            (by rw [h1]; exact he)⟩
      · obtain ⟨J, hJ1, hJ2, hse⟩ :=
          envSteps2_events w op ticket.key env_name email_domain monitor_pw now s1 e he
        exact ⟨J, by omega, hJ2, hse⟩

theorem envSteps1_mono (w : World) (op : Nat → Bool) (ticket : OnboardTicket)
    (env_name email_domain monitor_pw now : String) (s0 : StateDict) (n : Nat)
    (h : StateManager.is_step_done s0 ticket.key env_name n = true) :
    StateManager.is_step_done
      (envSteps1 w op ticket env_name email_domain monitor_pw now s0).st
      ticket.key env_name n = true := by
  unfold envSteps1
  rcases h1 : step1 w op ticket.users ticket.key env_name now s0 with ⟨tr1, s1, v1⟩
  have hm : StateManager.is_step_done s1 ticket.key env_name n = true := by
    have := step1_mono w op ticket.users ticket.key env_name now s0 n h
    rwa [h1] at this
  cases v1 with
  | error a => exact hm
  | ok u =>
      exact envSteps2_mono w op ticket.key env_name email_domain monitor_pw now s1 n hm

theorem envSteps1_tcompleted (w : World) (op : Nat → Bool) (ticket : OnboardTicket)
    (env_name email_domain monitor_pw now : String) (s0 : StateDict) (k : String) :
    (StateManager.ticketAt
      (envSteps1 w op ticket env_name email_domain monitor_pw now s0).st k).completed =
      (StateManager.ticketAt s0 k).completed := by
  unfold envSteps1
  rcases h1 : step1 w op ticket.users ticket.key env_name now s0 with ⟨tr1, s1, v1⟩
  have hm : (StateManager.ticketAt s1 k).completed =
      (StateManager.ticketAt s0 k).completed := by
    have := step1_tcompleted w op ticket.users ticket.key env_name now s0 k
    rwa [h1] at this
  cases v1 with
  | error a => exact hm
  | ok u =>
      rw [envSteps2_tcompleted w op ticket.key env_name email_domain monitor_pw now s1 k]
      exact hm

theorem envSteps1_c1 (w : World) (op : Nat → Bool) (ticket : OnboardTicket)
    (env_name email_domain monitor_pw now : String) (s0 : StateDict) (k : Nat)
    (hk : k ∈ ([1, 2, 3, 4, 5] : List Nat))
    (h : StateManager.is_step_done s0 ticket.key env_name k = true) :
    (∀ e ∈ (envSteps1 w op ticket env_name email_domain monitor_pw now s0).tr,
      Event.isPromptFor k e = false ∧ Event.isActionFor k e = false) ∧
    ((envSteps1 w op ticket env_name email_domain monitor_pw now s0).val = .ok () →
      Event.skipRender k ∈
        (envSteps1 w op ticket env_name email_domain monitor_pw now s0).tr) := by
  by_cases hk1 : k = 1
  · subst hk1
    unfold envSteps1
    rw [step1_done w op ticket.users ticket.key env_name now s0 h]
    dsimp only []
    obtain ⟨hc1, _⟩ :=
      envSteps2_c1 w op ticket.key env_name email_domain monitor_pw now s0 1 (by simp) h
    refine ⟨?_, ?_⟩
    · intro e he
      simp only [List.cons_append, List.nil_append, List.mem_cons] at he
      rcases he with he | he
      · subst he
        simp [Event.isPromptFor, Event.isActionFor]
      · exact hc1 e he
    · intro _
      simp
  · unfold envSteps1
    rcases h1 : step1 w op ticket.users ticket.key env_name now s0 with ⟨tr1, s1, v1⟩
    have hm : StateManager.is_step_done s1 ticket.key env_name k = true := by
      have := step1_mono w op ticket.users ticket.key env_name now s0 k h
      rwa [h1] at this
    cases v1 with
    | error a =>
        dsimp only []
        refine ⟨?_, ?_⟩
        · intro e he
          exact stepEvent_ne hk1
            (step1_events w op ticket.users ticket.key env_name now s0 e
              (by rw [h1]; exact he))
        · intro hv
          exact absurd hv (by simp)
    | ok u =>
        dsimp only []
        obtain ⟨hc1, hc2⟩ :=
          envSteps2_c1 w op ticket.key env_name email_domain monitor_pw now s1 k hk hm
        refine ⟨?_, ?_⟩
        · intro e he
          rw [List.mem_append] at he
          rcases he with he | he
          · exact stepEvent_ne hk1
              (step1_events w op ticket.users ticket.key env_name now s0 e
                (by rw [h1]; exact he))
          · exact hc1 e he
        · intro hv
          have hk2 : 2 ≤ k := by
            simp at hk
            omega
          exact List.mem_append.mpr (Or.inr (hc2 hv hk2))

theorem envSteps1_c5fail (w : World) (op : Nat → Bool) (ticket : OnboardTicket)
    (env_name email_domain monitor_pw now : String) (s0 : StateDict) (k : Nat)
    (h : ∃ e ∈ (envSteps1 w op ticket env_name email_domain monitor_pw now s0).tr,
      Event.isStepCallFor k e = true ∧ Event.actionOk e = false) :
    (∃ m, (envSteps1 w op ticket env_name email_domain monitor_pw now s0).val =
      .error (.failure m)) ∧
      StateManager.is_step_done
          (envSteps1 w op ticket env_name email_domain monitor_pw now s0).st
          ticket.key env_name k =
        StateManager.is_step_done s0 ticket.key env_name k := by
  unfold envSteps1 at h ⊢
  rcases h1 : step1 w op ticket.users ticket.key env_name now s0 with ⟨tr1, s1, v1⟩
  try rw [h1] at h
  cases v1 with
  | error a =>
      dsimp only [] at h ⊢
      obtain ⟨e, he, hcall, hok⟩ := h
      have hk1 : k = 1 :=
        (step1_events w op ticket.users ticket.key env_name now s0 e
          (by rw [h1]; exact he)).2.2.1 k hcall
      subst hk1
      have := step1_fail w op ticket.users ticket.key env_name now s0
        ⟨e, (by rw [h1]; exact he), hcall, hok⟩
      rw [h1] at this
      dsimp only [] at this
      obtain ⟨⟨m, hm⟩, hst⟩ := this
      have ha : a = .failure m := by
        simpa using hm
      exact ⟨⟨m, by rw [ha]⟩, by rw [hst]⟩
  | ok u =>
      dsimp only [] at h ⊢
      obtain ⟨e, he, hcall, hok⟩ := h
      rw [List.mem_append] at he
      rcases he with he | he
      · have hk1 : k = 1 :=
          (step1_events w op ticket.users ticket.key env_name now s0 e
            (by rw [h1]; exact he)).2.2.1 k hcall
        subst hk1
        have := step1_fail w op ticket.users ticket.key env_name now s0
          ⟨e, (by rw [h1]; exact he), hcall, hok⟩
        rw [h1] at this
        dsimp only [] at this
        obtain ⟨⟨m, hm⟩, _⟩ := this
        exact absurd hm (by simp)
      · have hk1 : k ≠ 1 := by
          obtain ⟨J, hJ1, _, hse⟩ :=
            envSteps2_events w op ticket.key env_name email_domain monitor_pw now s1 e he
          have := hse.2.2.1 k hcall
          omega
        obtain ⟨⟨m, hm⟩, heq⟩ :=
          envSteps2_c5fail w op ticket.key env_name email_domain monitor_pw now s1 k
            ⟨e, he, hcall, hok⟩
        have hother := step1_other w op ticket.users ticket.key env_name now s0 k hk1
        rw [h1] at hother
        exact ⟨⟨m, hm⟩, by rw [heq, hother]⟩

theorem envSteps1_mark (w : World) (op : Nat → Bool) (ticket : OnboardTicket)
    (env_name email_domain monitor_pw now : String) (s0 : StateDict) (k : Nat)
    (hk1 : k ≠ 1)
    (h : StateManager.is_step_done
      (envSteps1 w op ticket env_name email_domain monitor_pw now s0).st
      ticket.key env_name k = true) :
    StateManager.is_step_done s0 ticket.key env_name k = true ∨
      ∃ e ∈ (envSteps1 w op ticket env_name email_domain monitor_pw now s0).tr,
        Event.isStepCallFor k e = true ∧ Event.actionOk e = true := by
  unfold envSteps1 at h ⊢
  rcases h1 : step1 w op ticket.users ticket.key env_name now s0 with ⟨tr1, s1, v1⟩
  try rw [h1] at h
  have hother := step1_other w op ticket.users ticket.key env_name now s0 k hk1
  rw [h1] at hother
  cases v1 with
  | error a =>
      dsimp only [] at h ⊢
      rw [hother] at h
      exact Or.inl h
  | ok u =>
      dsimp only [] at h ⊢
      rcases envSteps2_mark w op ticket.key env_name email_domain monitor_pw now s1 k h
        with hl | ⟨e, he, hz⟩
      · rw [hother] at hl
        exact Or.inl hl
      · exact Or.inr ⟨e, List.mem_append.mpr (Or.inr he), hz⟩

/-- Degradation lemma: when domain resolution raises for the environment,
step 1 is auto-marked done, rendered as skipped (no prompt, no API call),
and the sequence still reaches step 2. -/
theorem envSteps1_resolve_error (w : World) (op : Nat → Bool)
    (ticket : OnboardTicket) (env_name email_domain monitor_pw now : String)
    (s0 : StateDict) (m : String) (hres : resolve_domain env_name = .error m) :
    StateManager.is_step_done
        (envSteps1 w op ticket env_name email_domain monitor_pw now s0).st
        ticket.key env_name 1 = true ∧
    Event.skipRender 1 ∈
      (envSteps1 w op ticket env_name email_domain monitor_pw now s0).tr ∧
    (∀ e ∈ (envSteps1 w op ticket env_name email_domain monitor_pw now s0).tr,
      Event.isPromptFor 1 e = false ∧ Event.isActionFor 1 e = false) ∧
    (∃ e ∈ (envSteps1 w op ticket env_name email_domain monitor_pw now s0).tr,
      e = .skipRender 2 ∨ e = .promptStep 2 ∨ ∃ b, e = .pgGetTenant email_domain b) := by
  unfold envSteps1
  rw [step1_resolve_error w op ticket.users ticket.key env_name now s0 m hres]
  dsimp only []
  have hmarked : StateManager.is_step_done
      (StateManager.mark_step_done s0 ticket.key env_name 1 now)
      ticket.key env_name 1 = true := by
    simp [StateManager.is_step_done_mark]
  refine ⟨?_, ?_, ?_, ?_⟩
  · exact envSteps2_mono w op ticket.key env_name email_domain monitor_pw now _ 1 hmarked
  · simp
  · intro e he
    simp only [List.cons_append, List.nil_append, List.mem_cons] at he
    rcases he with he | he
    · subst he
      simp [Event.isPromptFor, Event.isActionFor]
    · obtain ⟨hc1, _⟩ := envSteps2_c1 w op ticket.key env_name email_domain monitor_pw
        now _ 1 (by simp) hmarked
      exact hc1 e he
  · obtain ⟨e, he, hshape⟩ := envSteps2_started w op ticket.key env_name email_domain
      monitor_pw now (StateManager.mark_step_done s0 ticket.key env_name 1 now)
    exact ⟨e, List.mem_append.mpr (Or.inr he), hshape⟩

/-! ### Whole-sequence lemmas (registry lookup included) -/

theorem process_env_events (w : World) (op : Nat → Bool) (ticket : OnboardTicket)
    (env_name email_domain monitor_pw now : String) (s0 : StateDict) :
    ∀ e ∈ (process_env w op ticket env_name email_domain monitor_pw now s0).tr,
      ∃ J, 1 ≤ J ∧ J ≤ 5 ∧ stepEvent J e := by
  intro e he
  unfold process_env at he
  cases hreg : registry_get w env_name with
  | error m =>
      try rw [hreg] at he
      try dsimp only [] at he
      simp at he
  | ok u =>
      try rw [hreg] at he
      try dsimp only [] at he
      exact envSteps1_events w op ticket env_name email_domain monitor_pw now s0 e he

theorem process_env_mono (w : World) (op : Nat → Bool) (ticket : OnboardTicket)
    (env_name email_domain monitor_pw now : String) (s0 : StateDict) (n : Nat)
    (h : StateManager.is_step_done s0 ticket.key env_name n = true) :
    StateManager.is_step_done
      (process_env w op ticket env_name email_domain monitor_pw now s0).st
      ticket.key env_name n = true := by
  unfold process_env
  cases hreg : registry_get w env_name with
  | error m => exact h
  | ok u => exact envSteps1_mono w op ticket env_name email_domain monitor_pw now s0 n h

theorem process_env_tcompleted (w : World) (op : Nat → Bool) (ticket : OnboardTicket)
    (env_name email_domain monitor_pw now : String) (s0 : StateDict) (k : String) :
    (StateManager.ticketAt
      (process_env w op ticket env_name email_domain monitor_pw now s0).st k).completed =
      (StateManager.ticketAt s0 k).completed := by
  unfold process_env
  cases hreg : registry_get w env_name with
  | error m => rfl
  | ok u =>
      exact envSteps1_tcompleted w op ticket env_name email_domain monitor_pw now s0 k

theorem process_env_c1 (w : World) (op : Nat → Bool) (ticket : OnboardTicket)
    (env_name email_domain monitor_pw now : String) (s0 : StateDict) (k : Nat)
    (hk : k ∈ ([1, 2, 3, 4, 5] : List Nat))
    (h : StateManager.is_step_done s0 ticket.key env_name k = true) :
    (∀ e ∈ (process_env w op ticket env_name email_domain monitor_pw now s0).tr,
      Event.isPromptFor k e = false ∧ Event.isActionFor k e = false) ∧
    ((process_env w op ticket env_name email_domain monitor_pw now s0).val = .ok () →
      Event.skipRender k ∈
        (process_env w op ticket env_name email_domain monitor_pw now s0).tr) := by
  unfold process_env
  cases hreg : registry_get w env_name with
  | error m =>
      dsimp only []
      refine ⟨?_, ?_⟩
      · intro e he
        simp at he
      · intro hv
        exact absurd hv (by simp)
  | ok u =>
      dsimp only []
      exact envSteps1_c1 w op ticket env_name email_domain monitor_pw now s0 k hk h

theorem process_env_c5fail (w : World) (op : Nat → Bool) (ticket : OnboardTicket)
    (env_name email_domain monitor_pw now : String) (s0 : StateDict) (k : Nat)
    (h : ∃ e ∈ (process_env w op ticket env_name email_domain monitor_pw now s0).tr,
      Event.isStepCallFor k e = true ∧ Event.actionOk e = false) :
    (∃ m, (process_env w op ticket env_name email_domain monitor_pw now s0).val =
      .error (.failure m)) ∧
      StateManager.is_step_done
          (process_env w op ticket env_name email_domain monitor_pw now s0).st
          ticket.key env_name k =
        StateManager.is_step_done s0 ticket.key env_name k := by
  unfold process_env at h ⊢
  cases hreg : registry_get w env_name with
  | error m =>
      try rw [hreg] at h
      try dsimp only [] at h
      simp at h
  | ok u =>
      try rw [hreg] at h
      try dsimp only [] at h
      dsimp only []
      exact envSteps1_c5fail w op ticket env_name email_domain monitor_pw now s0 k h

theorem process_env_mark (w : World) (op : Nat → Bool) (ticket : OnboardTicket)
    (env_name email_domain monitor_pw now : String) (s0 : StateDict) (k : Nat)
    (hk1 : k ≠ 1)
    (h : StateManager.is_step_done
      (process_env w op ticket env_name email_domain monitor_pw now s0).st
      ticket.key env_name k = true) :
    StateManager.is_step_done s0 ticket.key env_name k = true ∨
      ∃ e ∈ (process_env w op ticket env_name email_domain monitor_pw now s0).tr,
        Event.isStepCallFor k e = true ∧ Event.actionOk e = true := by
  unfold process_env at h ⊢
  cases hreg : registry_get w env_name with
  | error m =>
      try rw [hreg] at h
      try dsimp only [] at h
      exact Or.inl h
  | ok u =>
      try rw [hreg] at h
      try dsimp only [] at h
      dsimp only []
      exact envSteps1_mark w op ticket env_name email_domain monitor_pw now s0 k hk1 h

/-! ## State-operation algebra (for quantifying over operation sequences) -/

/-- The `StateManager` mutations as data. -/
inductive SOp where
  | markStepDone (key env : String) (step : Nat) (now : String)
  | saveTenant (key env : String) (t : TenantRecord) (now : String)
  | saveMonitoringUser (key env email now : String)
  | saveMonitorPassword (key pw now : String)
  | markEnvCompleted (key env now : String)
  | markCompleted (key now : String)
deriving Repr

/-- Interpretation of one mutation on the in-memory state. -/
def applyOp : SOp → StateDict → StateDict
  | .markStepDone key env step now, s => StateManager.mark_step_done s key env step now
  | .saveTenant key env t now, s => StateManager.save_tenant s key env t now
  | .saveMonitoringUser key env email now, s =>
      StateManager.save_monitoring_user s key env email now
  | .saveMonitorPassword key pw now, s => StateManager.save_monitor_password s key pw now
  | .markEnvCompleted key env now, s => StateManager.mark_env_completed s key env now
  | .markCompleted key now, s => StateManager.mark_completed s key now

/-- A sequence of mutations, applied left to right. -/
def applyOps (ops : List SOp) (s : StateDict) : StateDict :=
  ops.foldl (fun st o => applyOp o st) s

/-- No single mutation removes a completed step ordinal. -/
theorem applyOp_mono (o : SOp) (s : StateDict) (k e : String) (n : Nat)
    (h : StateManager.is_step_done s k e n = true) :
    StateManager.is_step_done (applyOp o s) k e n = true := by
  cases o <;>
    simp [applyOp, StateManager.is_step_done_mark,
      StateManager.is_step_done_save_tenant,
      StateManager.is_step_done_save_monitoring_user,
      StateManager.is_step_done_save_monitor_password,
      StateManager.is_step_done_mark_env_completed,
      StateManager.is_step_done_mark_completed, h]

/-- The durable pair: in-memory dict plus the last successfully written
file content (`_save` replaces the file on success, leaves it on failure). -/
structure DState where
  mem : StateDict
  disk : Option StateDict

/-- One mutation at the durable level: the in-memory update followed by
`_save()`; `writeOk` is whether `write_text` succeeded. -/
def applyOpD (o : SOp) (d : DState) (writeOk : Bool) : DState :=
  let m := applyOp o d.mem
  { mem := m, disk := if writeOk then some m else d.disk }

/-! ## Claims -/

/-- C2: across any sequence of StateManager operations (mark_step_done,
save_tenant, save_monitoring_user, save_monitor_password,
mark_env_completed, mark_completed), a completed step ordinal is never
removed: the completed-ordinal set is monotonically non-decreasing. -/
theorem C2_steps_done_monotone (ops : List SOp) (s : StateDict) (key env : String)
    (n : Nat) (h : StateManager.is_step_done s key env n = true) :
    StateManager.is_step_done (applyOps ops s) key env n = true := by
  induction ops generalizing s with
  | nil => exact h
  | cons o rest ih => exact ih (applyOp o s) (applyOp_mono o s key env n h)

theorem C2_steps_done_monotone_witness :
    StateManager.is_step_done
      (applyOps
        [SOp.saveTenant "T1" "UAE POC" ⟨"tid", "sid", "acme.com"⟩ "t2",
         SOp.saveMonitorPassword "T1" "pw" "t3",
         SOp.markEnvCompleted "T1" "UAE POC" "t4",
         SOp.markCompleted "T1" "t5"]
        (StateManager.mark_step_done [] "T1" "UAE POC" 3 "t1"))
      "T1" "UAE POC" 3 = true :=
  C2_steps_done_monotone _ _ "T1" "UAE POC" 3 (by rfl)

/-- C6: for a non-empty required-environment list, `is_completed` is true
iff every listed environment's stored `completed` flag is true (an absent
record counts as not completed), and the result is unchanged by the
ticket-level `completed` flag that `mark_completed` sets. -/
theorem C6_is_completed_iff (s : StateDict) (key : String) (names : List String)
    (hne : names ≠ []) :
    (StateManager.is_completed s key names = true ↔
      ∀ e ∈ names, (StateManager.envAt s key e).completed = true) ∧
    (∀ now, StateManager.is_completed (StateManager.mark_completed s key now) key names =
      StateManager.is_completed s key names) := by
  constructor
  · simp [StateManager.is_completed, List.all_eq_true]
  · intro now
    simp [StateManager.is_completed, StateManager.envAt_mark_completed]

theorem C6_is_completed_iff_witness :
    (StateManager.is_completed
        (StateManager.mark_env_completed [] "T1" "E1" "t0") "T1" ["E1", "E2"] = true ↔
      ∀ e ∈ ["E1", "E2"],
        (StateManager.envAt (StateManager.mark_env_completed [] "T1" "E1" "t0")
          "T1" e).completed = true) ∧
    StateManager.is_completed
        (StateManager.mark_env_completed [] "T1" "E1" "t0") "T1" ["E1", "E2"] = false :=
  ⟨(C6_is_completed_iff (StateManager.mark_env_completed [] "T1" "E1" "t0")
      "T1" ["E1", "E2"] (by decide)).1, by decide⟩

/-- C7: loading the progress state never aborts: a missing file, an
unreadable file, or unparsable content all yield the empty state (the
function is total by construction, mirroring the broad `except` that logs
a warning and starts fresh). -/
theorem C7_load_fails_open (fileExists : Bool) (readResult : Except String String)
    (jsonLoads : String → Except String StateDict) :
    (fileExists = false → StateManager.load fileExists readResult jsonLoads = []) ∧
    (∀ m, readResult = .error m →
      StateManager.load fileExists readResult jsonLoads = []) ∧
    (∀ txt m, readResult = .ok txt → jsonLoads txt = .error m →
      StateManager.load fileExists readResult jsonLoads = []) := by
  refine ⟨?_, ?_, ?_⟩
  · intro hf
    simp [StateManager.load, hf]
  · intro m hr
    unfold StateManager.load
    rw [hr]
    split <;> rfl
  · intro txt m hr hj
    simp [StateManager.load, hr, hj]

theorem C7_load_fails_open_witness :
    StateManager.load true (.ok "corrupted ::") (fun _ => .error "invalid json") = [] :=
  (C7_load_fails_open true (.ok "corrupted ::") (fun _ => .error "invalid json")).2.2
    "corrupted ::" "invalid json" rfl rfl

/-- C9: `mark_step_done` is idempotent — on an already-present ordinal it
is the identity on the stored state (no duplicate entry), so marking twice
equals marking once — and every mutation at the durable level flushes the
in-memory state to the file when the write succeeds. -/
theorem C9_mark_step_done_idempotent (s : StateDict) (key env : String) (step : Nat)
    (now nowB : String) :
    (StateManager.is_step_done s key env step = true →
      StateManager.mark_step_done s key env step now = s) ∧
    (StateManager.mark_step_done (StateManager.mark_step_done s key env step now)
        key env step nowB =
      StateManager.mark_step_done s key env step now) ∧
    (∀ (o : SOp) (d : DState), (applyOpD o d true).disk = some (applyOpD o d true).mem) := by
  refine ⟨StateManager.mark_step_done_id s key env step now, ?_, ?_⟩
  · apply StateManager.mark_step_done_id
    simp [StateManager.is_step_done_mark]
  · intro o d
    rfl

theorem C9_mark_step_done_idempotent_witness :
    StateManager.is_step_done
        (StateManager.mark_step_done [] "T1" "UAE POC" 2 "t0") "T1" "UAE POC" 2 = true ∧
    StateManager.mark_step_done
        (StateManager.mark_step_done [] "T1" "UAE POC" 2 "t0") "T1" "UAE POC" 2 "t9" =
      StateManager.mark_step_done [] "T1" "UAE POC" 2 "t0" :=
  ⟨by rfl,
   (C9_mark_step_done_idempotent
      (StateManager.mark_step_done [] "T1" "UAE POC" 2 "t0")
      "T1" "UAE POC" 2 "t9" "tX").1 (by rfl)⟩

/-- C10: `is_completed` with an empty required-environment list is
vacuously true, for any ticket key and any state (including a ticket with
no record at all). -/
theorem C10_is_completed_empty (s : StateDict) (key : String) :
    StateManager.is_completed s key [] = true := rfl

/-- C1: whenever the progress store reports a step ordinal done before the
run, running the environment sequence presents no operator prompt for that
step and invokes none of its side-effecting actions; and if the sequence
completes, the step was rendered as already completed. -/
theorem C1_done_step_skipped (w : World) (op : Nat → Bool) (ticket : OnboardTicket)
    (env_name email_domain monitor_pw now : String) (s0 : StateDict) (k : Nat)
    (hk : k ∈ ([1, 2, 3, 4, 5] : List Nat))
    (h : StateManager.is_step_done s0 ticket.key env_name k = true) :
    (∀ e ∈ (process_env w op ticket env_name email_domain monitor_pw now s0).tr,
      Event.isPromptFor k e = false ∧ Event.isActionFor k e = false) ∧
    ((process_env w op ticket env_name email_domain monitor_pw now s0).val = .ok () →
      Event.skipRender k ∈
        (process_env w op ticket env_name email_domain monitor_pw now s0).tr) :=
  process_env_c1 w op ticket env_name email_domain monitor_pw now s0 k hk h

/-- All-successful external collaborators, for concrete test runs. -/
def wTest : World :=
  { get_user_account_type := fun _ => .ok none
    call_onboard_api := fun _ => .ok ()
    get_tenant := fun _ => .ok ⟨"tid", "sid", "acme.com"⟩
    get_tenant_role_ids := fun _ => .ok ["r1"]
    get_tenant_group_ids := fun _ => .ok []
    create_monitoring_user := fun _ _ _ _ _ => .ok true
    apply_onboarding_updates := fun _ => .ok ()
    merge_tenant := fun _ => .ok ()
    bcrypt_hash := fun p => p ++ "#hash"
    init_env_clients := fun _ => .ok () }

/-- A one-user test ticket on a known environment. -/
def tkTest : OnboardTicket :=
  ⟨"T1", "Customer Onboarding", "UAE POC", [⟨"Alice", "A", "alice@acme.com"⟩]⟩

theorem C1_done_step_skipped_witness :
    (∀ e ∈ (process_env wTest (fun _ => true) tkTest "UAE POC" "acme.com" "pw" "t0"
        (StateManager.mark_step_done [] "T1" "UAE POC" 3 "t0")).tr,
      Event.isPromptFor 3 e = false ∧ Event.isActionFor 3 e = false) ∧
    ((process_env wTest (fun _ => true) tkTest "UAE POC" "acme.com" "pw" "t0"
        (StateManager.mark_step_done [] "T1" "UAE POC" 3 "t0")).val = .ok () →
      Event.skipRender 3 ∈
        (process_env wTest (fun _ => true) tkTest "UAE POC" "acme.com" "pw" "t0"
          (StateManager.mark_step_done [] "T1" "UAE POC" 3 "t0")).tr) :=
  C1_done_step_skipped wTest (fun _ => true) tkTest "UAE POC" "acme.com" "pw" "t0"
    (StateManager.mark_step_done [] "T1" "UAE POC" 3 "t0") 3 (by decide) (by rfl)

/-- C5: if a step's external call fails, the environment sequence aborts
with the exception (no success result) and that step's done-flag is
exactly as before the run — it is not marked done, so the next invocation
retries it; and a step among 2..5 that is newly marked done got a
successful run of its call in this run's trace. -/
theorem C5_action_failure_not_marked (w : World) (op : Nat → Bool)
    (ticket : OnboardTicket) (env_name email_domain monitor_pw now : String)
    (s0 : StateDict) (k : Nat) :
    ((∃ e ∈ (process_env w op ticket env_name email_domain monitor_pw now s0).tr,
        Event.isStepCallFor k e = true ∧ Event.actionOk e = false) →
      (∃ m, (process_env w op ticket env_name email_domain monitor_pw now s0).val =
        .error (.failure m)) ∧
        StateManager.is_step_done
            (process_env w op ticket env_name email_domain monitor_pw now s0).st
            ticket.key env_name k =
          StateManager.is_step_done s0 ticket.key env_name k) ∧
    (k ∈ ([2, 3, 4, 5] : List Nat) →
      StateManager.is_step_done
        (process_env w op ticket env_name email_domain monitor_pw now s0).st
        ticket.key env_name k = true →
      StateManager.is_step_done s0 ticket.key env_name k = true ∨
        ∃ e ∈ (process_env w op ticket env_name email_domain monitor_pw now s0).tr,
          Event.isStepCallFor k e = true ∧ Event.actionOk e = true) := by
  constructor
  · intro hfail
    exact process_env_c5fail w op ticket env_name email_domain monitor_pw now s0 k hfail
  · intro hk h
    have hk1 : k ≠ 1 := by
      simp at hk
      omega
    exact process_env_mark w op ticket env_name email_domain monitor_pw now s0 k hk1 h

/-- A world whose step-4 updates raise, for the C5 witness. -/
def wFail4 : World :=
  { wTest with apply_onboarding_updates := fun _ => .error "connection reset" }

/-- Steps 1–3 done with a cached tenant, for the C5 witness. -/
def sSteps123 : StateDict :=
  StateManager.save_tenant
    (StateManager.mark_step_done
      (StateManager.mark_step_done
        (StateManager.mark_step_done [] "T1" "UAE POC" 1 "t0")
        "T1" "UAE POC" 2 "t0")
      "T1" "UAE POC" 3 "t0")
    "T1" "UAE POC" ⟨"tid", "sid", "acme.com"⟩ "t0"

theorem C5_action_failure_not_marked_witness :
    (∃ e ∈ (process_env wFail4 (fun _ => true) tkTest "UAE POC" "acme.com" "pw" "t0"
        sSteps123).tr,
      Event.isStepCallFor 4 e = true ∧ Event.actionOk e = false) ∧
    (∃ m, (process_env wFail4 (fun _ => true) tkTest "UAE POC" "acme.com" "pw" "t0"
        sSteps123).val = .error (.failure m)) ∧
      StateManager.is_step_done
          (process_env wFail4 (fun _ => true) tkTest "UAE POC" "acme.com" "pw" "t0"
            sSteps123).st "T1" "UAE POC" 4 =
        StateManager.is_step_done sSteps123 "T1" "UAE POC" 4 := by
  refine ⟨by decide, ?_⟩
  exact (C5_action_failure_not_marked wFail4 (fun _ => true) tkTest "UAE POC"
    "acme.com" "pw" "t0" sSteps123 4).1 (by decide)

/-- `ENV_FILE_MAP` and `ENV_DOMAIN_MAP` have the same key set: a name
absent from the domain map is absent from the env-file map too. -/
theorem envFileMap_none_of_domain_none (s : String)
    (h : alget ENV_DOMAIN_MAP s = none) : alget ENV_FILE_MAP s = none := by
  simp only [ENV_DOMAIN_MAP, ENV_FILE_MAP, alget] at h ⊢
  split_ifs at h ⊢ <;> simp_all

/-- C8 (counterexample to the claim as stated): at a concrete environment
name for which `resolve_domain` raises its `ValueError`, the sequence
aborts with an uncaught error before the handler can run — the trace is
empty (no warning render, no step of the sequence runs) and step 1 is not
auto-marked done — because `registry.get(env_name)` at agent.py line 127
raises first, ahead of the `try` around `resolve_domain`. -/
theorem C8_counterexample :
    resolve_domain "MARS POC" = .error "Unknown environment MARS POC" ∧
    (process_env wTest (fun _ => true) tkTest "MARS POC" "acme.com" "pw" "t0" []).tr
      = [] ∧
    StateManager.is_step_done
      (process_env wTest (fun _ => true) tkTest "MARS POC" "acme.com" "pw" "t0" []).st
      "T1" "MARS POC" 1 = false ∧
    (process_env wTest (fun _ => true) tkTest "MARS POC" "acme.com" "pw" "t0" []).val
      = .error (.failure "Unknown environment MARS POC") :=
  ⟨rfl, rfl, rfl, rfl⟩

/-- C8 (amended): for every environment name for which domain resolution
would fail with the known-unavailable `ValueError`, the environment
sequence instead aborts at the preceding `registry.get` lookup — which
fails for exactly the same environment names, since `ENV_FILE_MAP` and
`ENV_DOMAIN_MAP` share their key set — with an uncaught error: nothing is
rendered, step 1 is not auto-marked, no step runs, and the state is
unchanged.  The warn-and-auto-mark handler around `resolve_domain` is
unreachable in the program. -/
theorem C8_no_domain_aborts_at_registry (w : World) (op : Nat → Bool)
    (ticket : OnboardTicket) (env_name email_domain monitor_pw now : String)
    (s0 : StateDict) (m : String) (hres : resolve_domain env_name = .error m) :
    process_env w op ticket env_name email_domain monitor_pw now s0 =
      ⟨[], s0, .error (.failure ("Unknown environment " ++ pyStrip env_name))⟩ := by
  have hdom : alget ENV_DOMAIN_MAP (pyStrip env_name) = none := by
    unfold resolve_domain at hres
    cases hcase : alget ENV_DOMAIN_MAP (pyStrip env_name) with
    | none => rfl
    | some d =>
        rw [hcase] at hres
        simp at hres
  have hfile : alget ENV_FILE_MAP (pyStrip env_name) = none :=
    envFileMap_none_of_domain_none (pyStrip env_name) hdom
  unfold process_env registry_get
  rw [hfile]

theorem C8_no_domain_aborts_at_registry_witness :
    process_env wTest (fun _ => true) tkTest "MARS POC" "acme.com" "pw" "t0" [] =
      ⟨[], [], .error (.failure ("Unknown environment " ++ pyStrip "MARS POC"))⟩ :=
  C8_no_domain_aborts_at_registry wTest (fun _ => true) tkTest "MARS POC" "acme.com"
    "pw" "t0" [] "Unknown environment MARS POC" (by rfl)

/-! ### Ticket-orchestrator lemmas -/

/-- Password resolution leaves every ticket-level `completed` flag
unchanged. -/
theorem resolvePw_tcompleted (s : StateDict) (key f now : String) (k : String) :
    (StateManager.ticketAt (resolvePw s key f now).2 k).completed =
      (StateManager.ticketAt s k).completed := by
  unfold resolvePw
  cases h : StateManager.get_monitor_password s key
  · dsimp only []
    rw [StateManager.tcompleted_save_monitor_password]
  · rfl

/-- Password resolution leaves every environment record unchanged. -/
theorem resolvePw_envAt (s : StateDict) (key f now : String) (k e : String) :
    StateManager.envAt (resolvePw s key f now).2 k e = StateManager.envAt s k e := by
  unfold resolvePw
  cases h : StateManager.get_monitor_password s key
  · dsimp only []
    rw [StateManager.envAt_save_monitor_password]
  · rfl

/-- The environment sequence emits no Jira-facing effect of its own. -/
theorem process_env_no_jira (w : World) (op : Nat → Bool) (ticket : OnboardTicket)
    (env_name email_domain monitor_pw now : String) (s0 : StateDict) :
    ∀ e ∈ (process_env w op ticket env_name email_domain monitor_pw now s0).tr,
      Event.isJira e = false := by
  intro e he
  obtain ⟨J, _, _, hse⟩ :=
    process_env_events w op ticket env_name email_domain monitor_pw now s0 e he
  exact hse.2.2.2

/-- The driver's "already fully onboarded" check over a single required
environment is exactly the per-environment completed flag. -/
theorem is_completed_single (s : StateDict) (key env : String) :
    StateManager.is_completed s key [env] = StateManager.is_env_completed s key env := by
  simp [StateManager.is_completed, StateManager.is_env_completed]

/-- C3 (counterexample to the claim as stated): with the single required
environment already completed before the run, `process_ticket` returns
without posting a completion summary, without transitioning the ticket to
done, and without marking the ticket complete in the store. -/
theorem C3_counterexample :
    StateManager.is_env_completed
        (StateManager.mark_env_completed [] "T1" "UAE POC" "t0") "T1" "UAE POC" = true ∧
    (process_ticket wTest (fun _ => true) tkTest "pw0" "t1"
        (StateManager.mark_env_completed [] "T1" "UAE POC" "t0")).out = .ok ∧
    Event.jiraAddComment "T1" .completedSummary ∉
      (process_ticket wTest (fun _ => true) tkTest "pw0" "t1"
        (StateManager.mark_env_completed [] "T1" "UAE POC" "t0")).tr ∧
    Event.jiraMarkDone "T1" ∉
      (process_ticket wTest (fun _ => true) tkTest "pw0" "t1"
        (StateManager.mark_env_completed [] "T1" "UAE POC" "t0")).tr ∧
    (StateManager.ticketAt
        (process_ticket wTest (fun _ => true) tkTest "pw0" "t1"
          (StateManager.mark_env_completed [] "T1" "UAE POC" "t0")).st
        "T1").completed = false := by
  decide

/-- C3 (amended): when the environment is processed to completion by this
run, `process_ticket` posts the completion summary, transitions the ticket
to done and marks it complete; but when the required environment was
already complete before processing, `process_ticket` returns right after
the in-progress transition, with no completion summary, no done
transition, and no completion mark. -/
theorem C3_wrapup_only_after_processing (w : World) (op : Nat → Bool)
    (ticket : OnboardTicket) (freshPw now : String) (s0 : StateDict)
    (u : UserRec) (us : List UserRec) (hu : ticket.users = u :: us)
    (dom : String) (hdom : extract_email_domain u.email = .ok dom) :
    (StateManager.is_env_completed (resolvePw s0 ticket.key freshPw now).2
        ticket.key ticket.environment = true →
      process_ticket w op ticket freshPw now s0 =
        ⟨[.jiraMarkInProgress ticket.key],
         (resolvePw s0 ticket.key freshPw now).2, .ok⟩) ∧
    (∀ tre se,
      StateManager.is_env_completed (resolvePw s0 ticket.key freshPw now).2
        ticket.key ticket.environment = false →
      process_env w op ticket ticket.environment dom
        (resolvePw s0 ticket.key freshPw now).1 now
        (resolvePw s0 ticket.key freshPw now).2 = ⟨tre, se, .ok ()⟩ →
      process_ticket w op ticket freshPw now s0 =
        ⟨[.jiraMarkInProgress ticket.key] ++ tre ++
          [.jiraAddComment ticket.key .completedSummary, .jiraMarkDone ticket.key],
         StateManager.mark_completed se ticket.key now, .ok⟩) := by
  rcases hp : resolvePw s0 ticket.key freshPw now with ⟨pw, s1⟩
  constructor
  · intro hdone
    unfold process_ticket
    rw [hu]
    dsimp only []
    rw [hdom]
    dsimp only []
    rw [hp]
    dsimp only []
    rw [if_pos hdone]
  · intro tre se hne henv
    try dsimp only [] at henv
    unfold process_ticket
    rw [hu]
    dsimp only []
    rw [hdom]
    dsimp only []
    rw [hp]
    dsimp only []
    rw [if_neg (ne_true_of_eq_false hne), henv]

theorem C3_wrapup_only_after_processing_witness :
    process_ticket wTest (fun _ => true) tkTest "pw0" "t1"
        (StateManager.mark_env_completed [] "T1" "UAE POC" "t0") =
      ⟨[.jiraMarkInProgress "T1"],
       (resolvePw (StateManager.mark_env_completed [] "T1" "UAE POC" "t0")
         "T1" "pw0" "t1").2, .ok⟩ :=
  (C3_wrapup_only_after_processing wTest (fun _ => true) tkTest "pw0" "t1"
      (StateManager.mark_env_completed [] "T1" "UAE POC" "t0")
      ⟨"Alice", "A", "alice@acme.com"⟩ [] (by rfl) "acme.com" (by rfl)).1
    (by decide)

/-- C4: an operator decline inside the environment sequence is handled at
the ticket level: a paused comment is posted, `process_ticket` returns
normally (outcome `.ok`) without transitioning the ticket to done and
without changing the stored ticket-level completed flag, and the run
driver neither adds the key to the failed list nor stops: the remaining
tickets are processed unchanged. -/
theorem C4_decline_nonfatal (w : World) (op : Nat → Bool) (ticket : OnboardTicket)
    (freshPw now : String) (s0 : StateDict) (u : UserRec) (us : List UserRec)
    (rest : List OnboardTicket) (hu : ticket.users = u :: us)
    (dom : String) (hdom : extract_email_domain u.email = .ok dom)
    (hne : StateManager.is_env_completed (resolvePw s0 ticket.key freshPw now).2
      ticket.key ticket.environment = false)
    (hskip : ∃ kk, (process_env w op ticket ticket.environment dom
      (resolvePw s0 ticket.key freshPw now).1 now
      (resolvePw s0 ticket.key freshPw now).2).val = .error (.userSkipped kk)) :
    (process_ticket w op ticket freshPw now s0).out = .ok ∧
    Event.jiraAddComment ticket.key .paused ∈
      (process_ticket w op ticket freshPw now s0).tr ∧
    Event.jiraMarkDone ticket.key ∉ (process_ticket w op ticket freshPw now s0).tr ∧
    (StateManager.ticketAt (process_ticket w op ticket freshPw now s0).st
        ticket.key).completed = (StateManager.ticketAt s0 ticket.key).completed ∧
    run_tickets w op freshPw now (ticket :: rest) s0 =
      ((process_ticket w op ticket freshPw now s0).tr ++
        (run_tickets w op freshPw now rest
          (process_ticket w op ticket freshPw now s0).st).1,
       (run_tickets w op freshPw now rest
         (process_ticket w op ticket freshPw now s0).st).2.1,
       (run_tickets w op freshPw now rest
         (process_ticket w op ticket freshPw now s0).st).2.2) := by
  rcases hp : resolvePw s0 ticket.key freshPw now with ⟨pw, s1⟩
  try rw [hp] at hne
  try dsimp only [] at hne
  obtain ⟨kk, hv⟩ := hskip
  try rw [hp] at hv
  try dsimp only [] at hv
  rcases hpe : process_env w op ticket ticket.environment dom pw now s1
    with ⟨tre, se, v⟩
  try rw [hpe] at hv
  have hv2 : v = .error (.userSkipped kk) := hv
  subst hv2
  have hPT : process_ticket w op ticket freshPw now s0 =
      ⟨[.jiraMarkInProgress ticket.key] ++ tre ++
        [.jiraAddComment ticket.key .paused], se, .ok⟩ := by
    unfold process_ticket
    rw [hu]
    dsimp only []
    rw [hdom]
    dsimp only []
    rw [hp]
    dsimp only []
    rw [if_neg (ne_true_of_eq_false hne), hpe]
  have hnotdone0 : StateManager.is_completed s0 ticket.key [ticket.environment] = false := by
    rw [is_completed_single]
    have : StateManager.is_env_completed s1 ticket.key ticket.environment =
        StateManager.is_env_completed s0 ticket.key ticket.environment := by
      unfold StateManager.is_env_completed
      have := resolvePw_envAt s0 ticket.key freshPw now ticket.key ticket.environment
      rw [hp] at this
      rw [this]
    rw [← this]
    exact hne
  refine ⟨by rw [hPT], ?_, ?_, ?_, ?_⟩
  · rw [hPT]
    simp
  · rw [hPT]
    intro hmem
    simp only [List.append_assoc, List.cons_append, List.nil_append, List.mem_cons,
      List.mem_append] at hmem
    rcases hmem with h1 | hmem
    · exact absurd h1 (by simp)
    rcases hmem with h1 | h1
    · have := process_env_no_jira w op ticket ticket.environment dom pw now s1
        (Event.jiraMarkDone ticket.key) (by rw [hpe]; exact h1)
      simp [Event.isJira] at this
    · rcases h1 with h1 | h1
      · exact absurd h1 (by simp)
      · simp at h1
  · rw [hPT]
    have h1 : (StateManager.ticketAt se ticket.key).completed =
        (StateManager.ticketAt s1 ticket.key).completed := by
      have := process_env_tcompleted w op ticket ticket.environment dom pw now s1
        ticket.key
      rwa [hpe] at this
    have h2 : (StateManager.ticketAt s1 ticket.key).completed =
        (StateManager.ticketAt s0 ticket.key).completed := by
      have := resolvePw_tcompleted s0 ticket.key freshPw now ticket.key
      rwa [hp] at this
    dsimp only []
    rw [h1, h2]
  · conv_lhs => rw [run_tickets]
    rw [hnotdone0, hPT]
    simp

theorem C4_decline_nonfatal_witness :
    (process_ticket wTest (fun k => k != 3) tkTest "pw0" "t1" []).out = .ok ∧
    Event.jiraAddComment "T1" .paused ∈
      (process_ticket wTest (fun k => k != 3) tkTest "pw0" "t1" []).tr ∧
    Event.jiraMarkDone "T1" ∉ (process_ticket wTest (fun k => k != 3) tkTest "pw0" "t1" []).tr ∧
    (StateManager.ticketAt (process_ticket wTest (fun k => k != 3) tkTest "pw0" "t1" []).st
        "T1").completed = (StateManager.ticketAt ([] : StateDict) "T1").completed ∧
    run_tickets wTest (fun k => k != 3) "pw0" "t1" [tkTest] [] =
      ((process_ticket wTest (fun k => k != 3) tkTest "pw0" "t1" []).tr ++
        (run_tickets wTest (fun k => k != 3) "pw0" "t1" []
          (process_ticket wTest (fun k => k != 3) tkTest "pw0" "t1" []).st).1,
       (run_tickets wTest (fun k => k != 3) "pw0" "t1" []
         (process_ticket wTest (fun k => k != 3) tkTest "pw0" "t1" []).st).2.1,
       (run_tickets wTest (fun k => k != 3) "pw0" "t1" []
         (process_ticket wTest (fun k => k != 3) tkTest "pw0" "t1" []).st).2.2) :=
  C4_decline_nonfatal wTest (fun k => k != 3) tkTest "pw0" "t1" []
    ⟨"Alice", "A", "alice@acme.com"⟩ [] [] (by rfl) "acme.com" (by rfl)
    (by decide) ⟨3, by rfl⟩

end QOnboard

